import Mathlib

/-!
# Fibonacci spiral: the affine kernel, the scale cursor and the point generator

A shallow embedding of `include/matrix.h` and, from `src/main.cpp`, of
`get_fibonacci_points`, of the generation of the Fibonacci buffer and of the
session run by `main` and `render_fibonacci_spiral`.

Modelling conventions.

* `float` is modelled by an arbitrary field `α` (exact arithmetic, no rounding,
  no NaN or infinity); concrete evaluations are carried out over `ℚ`.
* `int` is modelled by `ℤ` with 32-bit wrap-around of each result
  (`wrap_int32`): the difference taken by `transform_op` and the additions that
  fill the Fibonacci buffer (`plus_int`).
* A call of `get_fibonacci_points` on an empty range runs `std::transform` off
  its buffers (`end - 1` lies before `begin`) and kills the process; calls are
  modelled by `get_fibonacci_points_call`, which yields `none` there, and the
  background task then stays in the position `crashed`.
* `std::array<float, N>` storage is a row-major `List α`; `operator()(i, j)`
  reads and writes position `i * cols + j`.
* `ImVec2` is a pair of floats and is modelled by `point2d α`.
* The private index of `circular_scale_iterator` is only ever written by
  `i = 0` and by assignments of the form `(_) % transformations.size()`, so
  it is modelled by `Fin 4`.
* The background task is a step machine: one step covers the statements up to
  and including its next access to one of the three atomic flags. The
  foreground acts between steps; `join` lets the task run until it has returned.
  What the file system answers is a parameter (`environment`).
-/

namespace fib

/-- The class `point2d<T>`: a pair of coordinates. -/
structure point2d (α : Type) where
  x : α
  y : α
deriving DecidableEq, Repr

/-- The class `vector2d<T>`: a directed segment with anchor `p1` and tip `p2`. -/
structure vector2d (α : Type) where
  p1 : point2d α
  p2 : point2d α
deriving DecidableEq, Repr

/-! ## rotation_matrix -/

/-- The class `rotation_matrix<Angle, float, 2, 2>`: row-major storage of a 2×2 matrix. -/
structure rotation_matrix (α : Type) where
  storage : List α
deriving DecidableEq, Repr

namespace rotation_matrix

variable {α : Type} [Field α]

/-- Member `rows()`. -/
def rows : Nat := 2

/-- Member `cols()`. -/
def cols : Nat := 2

/-- Reading `operator()(i, j)`: the entry `storage_[i * cols() + j]`. -/
def get (m : rotation_matrix α) (i j : Nat) : α :=
  m.storage.getD (i * cols + j) 0

/-- Writing through `operator()(i, j)`: assigns `storage_[i * cols() + j]`. -/
def set (m : rotation_matrix α) (i j : Nat) (v : α) : rotation_matrix α :=
  ⟨m.storage.set (i * cols + j) v⟩

/-- The static member `rotation_matrix<90, float, 2, 2>::cos`, `0.f`. -/
def cos : α := 0

/-- The static member `rotation_matrix<90, float, 2, 2>::sin`, `1.f`. -/
def sin : α := 1

/-- The default constructor of `rotation_matrix<90, float, 2, 2>`
(`static_matrix_2f_90d`): storage `cos, -sin, sin, cos`. -/
def static_matrix_2f_90d : rotation_matrix α :=
  ⟨[cos, -sin, sin, cos]⟩

/-- The member `operator*(point2d<float> const&)`. -/
def mul_point (m : rotation_matrix α) (point : point2d α) : point2d α :=
  let x := m.storage.getD 0 0 * point.x + m.storage.getD 1 0 * point.y
  let y := m.storage.getD 2 0 * point.x + m.storage.getD 3 0 * point.y
  ⟨x, y⟩

/-- The member `operator*(vector2d<float> const&)`: bring the tip to the origin,
multiply, bring it back; the anchor `v.p1()` is passed through. -/
def mul_vector (m : rotation_matrix α) (v : vector2d α) : vector2d α :=
  let p2 := v.p2
  -- bring to origin
  let p2 : point2d α := ⟨p2.x - v.p1.x, p2.y - v.p1.y⟩
  let p2 := m.mul_point p2
  -- bring back
  let p2 : point2d α := ⟨p2.x + v.p1.x, p2.y + v.p1.y⟩
  ⟨v.p1, p2⟩

/-- The member `operator*(self_t const&)` of `rotation_matrix<90, float, 2, 2>`:
a default-constructed result whose four entries are then assigned. -/
def mul (this other : rotation_matrix α) : rotation_matrix α :=
  let result : rotation_matrix α := static_matrix_2f_90d
  let result := result.set 0 0 (this.get 0 0 * other.get 0 0 + this.get 0 1 * other.get 1 0)
  let result := result.set 0 1 (this.get 0 0 * other.get 0 1 + this.get 0 1 * other.get 1 1)
  let result := result.set 1 0 (this.get 1 0 * other.get 0 0 + this.get 1 1 * other.get 1 0)
  let result := result.set 1 1 (this.get 1 0 * other.get 0 1 + this.get 1 1 * other.get 1 1)
  result

end rotation_matrix

/-! ## scale_translate_matrix -/

/-- The class `scale_translate_matrix<float, 2, 3>`: row-major storage of a 2×3 matrix. -/
structure scale_translate_matrix (α : Type) where
  storage : List α
deriving DecidableEq, Repr

namespace scale_translate_matrix

variable {α : Type} [Field α]

/-- Member `rows()`. -/
def rows : Nat := 2

/-- Member `cols()`. -/
def cols : Nat := 3

/-- The defaulted constructor: `storage_ = { 1, 0, 0, 0, 1, 0 }`. -/
def ctor : scale_translate_matrix α :=
  ⟨[1, 0, 0, 0, 1, 0]⟩

/-- The constructor `scale_translate_matrix(kx, ky)`. -/
def ctor2 (kx ky : α) : scale_translate_matrix α :=
  ⟨[kx, 0, 0, 0, ky, 0]⟩

/-- The constructor `scale_translate_matrix(kx, ky, tx, ty)`. -/
def ctor4 (kx ky tx ty : α) : scale_translate_matrix α :=
  ⟨[kx, 0, tx, 0, ky, ty]⟩

/-- Reading the private `operator()(i, j)`: the entry `storage_[i * cols() + j]`. -/
def get (m : scale_translate_matrix α) (i j : Nat) : α :=
  m.storage.getD (i * cols + j) 0

/-- Writing through the private `operator()(i, j)`: assigns `storage_[i * cols() + j]`. -/
def set (m : scale_translate_matrix α) (i j : Nat) (v : α) : scale_translate_matrix α :=
  ⟨m.storage.set (i * cols + j) v⟩

/-- Getter `scale_x()`: `storage_[0]`. -/
def scale_x (m : scale_translate_matrix α) : α := m.storage.getD 0 0

/-- Getter `scale_y()`: `storage_[cols() + 1]`. -/
def scale_y (m : scale_translate_matrix α) : α := m.storage.getD (cols + 1) 0

/-- Getter `translate_x()`: `storage_[cols() - 1]`. -/
def translate_x (m : scale_translate_matrix α) : α := m.storage.getD (cols - 1) 0

/-- Getter `translate_y()`: `storage_[cols() * rows() - 1]`. -/
def translate_y (m : scale_translate_matrix α) : α := m.storage.getD (cols * rows - 1) 0

/-- Setter `scale_x(kx)`. -/
def set_scale_x (m : scale_translate_matrix α) (kx : α) : scale_translate_matrix α :=
  ⟨m.storage.set 0 kx⟩

/-- Setter `scale_y(ky)`. -/
def set_scale_y (m : scale_translate_matrix α) (ky : α) : scale_translate_matrix α :=
  ⟨m.storage.set (cols + 1) ky⟩

/-- Setter `translate_x(kx)`. -/
def set_translate_x (m : scale_translate_matrix α) (kx : α) : scale_translate_matrix α :=
  ⟨m.storage.set (cols - 1) kx⟩

/-- Setter `translate_y(ky)`. -/
def set_translate_y (m : scale_translate_matrix α) (ky : α) : scale_translate_matrix α :=
  ⟨m.storage.set (cols * rows - 1) ky⟩

/-- The member `operator*(point2d<float> const&)`. -/
def mul_point (m : scale_translate_matrix α) (point : point2d α) : point2d α :=
  let x := m.scale_x * point.x + m.translate_x
  let y := m.scale_y * point.y + m.translate_y
  ⟨x, y⟩

/-- The member `operator*(vector2d<float> const&)`: the tip is moved relative to
the anchor, and the anchor is replaced by the image of the origin, shifted back. -/
def mul_vector (m : scale_translate_matrix α) (v : vector2d α) : vector2d α :=
  let p2 := v.p2
  -- bring to origin
  let p2 : point2d α := ⟨p2.x - v.p1.x, p2.y - v.p1.y⟩
  let p2 := m.mul_point p2
  -- bring back
  let p2 : point2d α := ⟨p2.x + v.p1.x, p2.y + v.p1.y⟩
  -- origin
  let p1 : point2d α := ⟨0, 0⟩
  let p1 := m.mul_point p1
  -- bring back
  let p1 : point2d α := ⟨p1.x + v.p1.x, p1.y + v.p1.y⟩
  ⟨p1, p2⟩

end scale_translate_matrix

/-! ## circular_scale_iterator -/

/-- The class `circular_scale_iterator<float, 2, 3>`: the index `i` into the table. -/
structure circular_scale_iterator where
  i : Fin 4
deriving DecidableEq, Repr

namespace circular_scale_iterator

variable {α : Type} [Field α]

/-- The static table `transformations` of tuples
`(scale_x, scale_y, sign, translate_x, translate_y)`. -/
def transformations : Fin 4 → Nat × Nat × Int × Nat × Nat :=
  ![(0, 0, -1, 0, 2),
    (1, 1, -1, 1, 2),
    (0, 0, 1, 0, 2),
    (1, 1, 1, 1, 2)]

/-- The value-initialised iterator, `i = 0`. -/
def ctor : circular_scale_iterator := ⟨0⟩

/-- The member `operator++`: `i = (i + 1) % transformations.size()`. -/
def inc (it : circular_scale_iterator) : circular_scale_iterator :=
  ⟨⟨(it.i.val + 1) % 4, Nat.mod_lt _ (by decide)⟩⟩

/-- The member `operator+(n)`: a new iterator at `(i + n) % transformations.size()`. -/
def add (it : circular_scale_iterator) (n : Nat) : circular_scale_iterator :=
  ⟨⟨(it.i.val + n) % 4, Nat.mod_lt _ (by decide)⟩⟩

/-- The member `scale_translate(k, d)`: a default matrix in which cell `(sx, sy)`
receives `k` and cell `(tx, ty)` receives `sign * d`. -/
def scale_translate (it : circular_scale_iterator) (k d : α) : scale_translate_matrix α :=
  match transformations it.i with
  | (sx, sy, sign, tx, ty) =>
    let result : scale_translate_matrix α := scale_translate_matrix.ctor
    let result := result.set sx sy k
    let result := result.set tx ty ((sign : α) * d)
    result

end circular_scale_iterator

/-! ## get_fibonacci_points -/

section generator

variable {α : Type} [Field α]

/-- The constant `segments` of `get_fibonacci_points`. -/
def segments : Nat := 10

/-- The value of an `int` operation: the result reduced to the 32-bit signed range. -/
def wrap_int32 (x : Int) : Int :=
  (x + 2 ^ 31) % 2 ^ 32 - 2 ^ 31

/-- The lambda `transform_op`: the `(scale, distance)` pair of two consecutive
samples; `distance` is an `int` difference. -/
def transform_op (prev next : Int) : α × Int :=
  if prev = 0 then (1, 0)
  else
    let scale : α := (next : α) / (prev : α)
    let distance := wrap_int32 (next - prev)
    (scale, distance)

/-- The state threaded through `std::accumulate` by `reduce_op`: the accumulated
segment together with the two objects the lambda captures by reference. -/
structure reduce_state (α : Type) where
  v : vector2d α
  iterator : circular_scale_iterator
  points : List (point2d α)

/-- The lambda `reduce_op`: build the scale matrix from the cursor, advance the
cursor, transform the segment, and append the tip of the incoming segment. -/
def reduce_op (s : reduce_state α) (pair : α × Int) : reduce_state α :=
  match pair with
  | (k, d) =>
    let scale : scale_translate_matrix α := s.iterator.scale_translate k (d : α)
    let iterator := s.iterator.inc
    let v := rotation_matrix.static_matrix_2f_90d.mul_vector (scale.mul_vector s.v)
    let points := s.points ++ [s.v.p2]
    ⟨v, iterator, points⟩

/-- The local `transformed` after the call of `std::transform`: `count`
value-initialised pairs, the leading ones overwritten by `transform_op` applied
to `[begin, end - 1)` zipped with the range starting at `begin + 1`. The written
prefix has `n - 1` entries and always fits into the `count = n * segments` slots. -/
def transformed (input : List Int) : List (α × Int) :=
  let count := input.length * segments
  let transformed : List (α × Int) := List.replicate count (0, 0)
  let written : List (α × Int) := List.zipWith transform_op input.dropLast input.tail
  written ++ transformed.drop written.length

/-- The function `get_fibonacci_points(begin, end)` on the samples `[begin, end)`.
The source forms `end - 1`, so the range is expected to be non-empty. -/
def get_fibonacci_points (input : List Int) : List (point2d α) :=
  let iterator := circular_scale_iterator.ctor
  let p1 : point2d α := ⟨0, 0⟩
  let p2 : point2d α := ⟨1, 0⟩
  let v : vector2d α := ⟨p1, p2⟩
  ((transformed input).foldl reduce_op ⟨v, iterator, []⟩).points

/-- A call of `get_fibonacci_points` as the source executes it. On an empty range
`end - 1` lies before `begin`: `std::transform` never meets its end iterator, runs
off the samples and off the empty `transformed`, and the process is killed;
`none` stands for that outcome. -/
def get_fibonacci_points_call (input : List Int) : Option (List (point2d α)) :=
  if input.isEmpty then none else some (get_fibonacci_points input)

/-- The running segment `v_i` as the specification words it: `v_0` has anchor
`(0,0)` and tip `(1,0)`, and `v_(i+1) = Rotate90 · (ScaleTranslate_i · v_i)` where
`ScaleTranslate_i` is built by the cursor in state `i mod 4` from the `i`-th
`(scale, distance)` pair of `pairs`. -/
def spec_running_segment (pairs : List (α × Int)) : Nat → vector2d α
  | 0 => ⟨⟨0, 0⟩, ⟨1, 0⟩⟩
  | i + 1 =>
    let pair := pairs.getD i (0, 0)
    let cursor : circular_scale_iterator := ⟨⟨i % 4, Nat.mod_lt _ (by decide)⟩⟩
    let scale_translate_i : scale_translate_matrix α := cursor.scale_translate pair.1 (pair.2 : α)
    rotation_matrix.static_matrix_2f_90d.mul_vector
      (scale_translate_i.mul_vector (spec_running_segment pairs i))

/-- The `i`-th derived `(scale, distance)` pair as the specification words it:
computed from the consecutive samples `(prev, next) = (input[i], input[i+1])`,
`(1, 0)` when `prev = 0` and `(next / prev, next − prev)` otherwise, the
difference being that of 32-bit `int`. There is no such pair when one of the two
samples is missing. -/
def spec_derived_pair (input : List Int) (i : Nat) : Option (α × Int) :=
  match input[i]?, input[i + 1]? with
  | some prev, some next =>
    some (if prev = 0 then ((1 : α), (0 : Int))
      else ((next : α) / (prev : α), (next - prev + 2 ^ 31) % 2 ^ 32 - 2 ^ 31))
  | _, _ => none

/-- The running segment `v_i` as the specification words it, built from the
derived pairs of the input only: `v_0` has anchor `(0,0)` and tip `(1,0)`, and
`v_(i+1) = Rotate90 · (ScaleTranslate_i · v_i)` with `ScaleTranslate_i` built by
the cursor in state `i mod 4` from the `i`-th derived pair. It does not exist when
a derived pair it needs does not exist. -/
def spec_segment (input : List Int) : Nat → Option (vector2d α)
  | 0 => some ⟨⟨0, 0⟩, ⟨1, 0⟩⟩
  | i + 1 =>
    match spec_segment input i, spec_derived_pair input i with
    | some v, some pair =>
      let cursor : circular_scale_iterator := ⟨⟨i % 4, Nat.mod_lt _ (by decide)⟩⟩
      let scale_translate_i : scale_translate_matrix α :=
        cursor.scale_translate pair.1 (pair.2 : α)
      some (rotation_matrix.static_matrix_2f_90d.mul_vector (scale_translate_i.mul_vector v))
    | _, _ => none

/-- The pair list the specification's recursion is run on to describe every
returned point: the `i`-th derived pair where it exists and the value-initialised
pair `(0, 0)` at the remaining positions below `count`. -/
def spec_pairs (input : List Int) (count : Nat) : List (α × Int) :=
  (List.range count).map (fun i => (spec_derived_pair input i).getD ((0 : α), (0 : Int)))

end generator

/-! ## The generic rotation matrix and the notions used to state orthonormality -/

namespace rotation_matrix

variable {α : Type} [Field α]

/-- The constructor of the generic `rotation_matrix<Angle, float, 2, 2>`:
`angle = float(Angle) * pi / 180` and storage `cos, -sin, sin, cos` of that angle.
The library functions `std::cos`, `std::sin` and the constant `pi` are parameters. -/
def ctor (cosf sinf : α → α) (pi : α) (Angle : Int) : rotation_matrix α :=
  let angle := (Angle : α) * pi / 180
  ⟨[cosf angle, -sinf angle, sinf angle, cosf angle]⟩

/-- Specification-side notion: the determinant of a 2×2 matrix. -/
def det (m : rotation_matrix α) : α :=
  m.get 0 0 * m.get 1 1 - m.get 0 1 * m.get 1 0

/-- Specification-side notion: the transpose of a 2×2 matrix. -/
def transpose (m : rotation_matrix α) : rotation_matrix α :=
  ⟨[m.get 0 0, m.get 1 0, m.get 0 1, m.get 1 1]⟩

/-- Specification-side notion: the 2×2 identity matrix. -/
def identity : rotation_matrix α :=
  ⟨[1, 0, 0, 1]⟩

end rotation_matrix

/-- Specification-side notion: the squared Euclidean length of a point. -/
def point2d.norm_sq {α : Type} [Field α] (p : point2d α) : α :=
  p.x * p.x + p.y * p.y

/-! ## The public interface of scale_translate_matrix -/

/-- One call of a public setter of `scale_translate_matrix<float, 2, 3>`. -/
inductive setter_call (α : Type) where
  | scale_x (kx : α)
  | scale_y (ky : α)
  | translate_x (kx : α)
  | translate_y (ky : α)
deriving DecidableEq, Repr

/-- The effect of one setter call on a matrix. -/
def scale_translate_matrix.apply_setter {α : Type} [Field α]
    (m : scale_translate_matrix α) : setter_call α → scale_translate_matrix α
  | .scale_x kx => m.set_scale_x kx
  | .scale_y ky => m.set_scale_y ky
  | .translate_x kx => m.set_translate_x kx
  | .translate_y ky => m.set_translate_y ky

/-! ## Generation of the Fibonacci buffer -/

/-- The function object `std::plus<int>{}` on 32-bit `int`. -/
def plus_int (a b : Int) : Int :=
  wrap_int32 (a + b)

/-- The call `std::fill(buf.begin() + first, buf.begin() + last, value)`. -/
def std_fill (buf : List Int) (first last : Nat) (value : Int) : List Int :=
  buf.take first ++ List.replicate (last - first) value ++ buf.drop last

/-- The loop `while (++first != last)` of `std::adjacent_difference`, run on the
buffer itself: `val = *first; *++d_first = op(val, acc); acc = val`. The first
argument is the number of iterations, `first` and `d_first` are positions in `buf`. -/
def adjacent_difference_loop (op : Int → Int → Int) :
    Nat → List Int → Nat → Nat → Int → List Int
  | 0, buf, _, _, _ => buf
  | n + 1, buf, first, d_first, acc =>
    let val := buf.getD first 0
    let buf := buf.set d_first (op val acc)
    adjacent_difference_loop op n buf (first + 1) (d_first + 1) val

/-- The call `std::adjacent_difference(first, last, d_first, op)` with all three
iterators pointing into the same buffer (positions `first ≤ last` and `d_first`). -/
def adjacent_difference (op : Int → Int → Int) (buf : List Int) (first last d_first : Nat) :
    List Int :=
  if first = last then buf
  else
    let acc := buf.getD first 0
    let buf := buf.set d_first acc
    adjacent_difference_loop op (last - first - 1) buf (first + 1) (d_first + 1) acc

/-- The buffer `fibonacci` of `render_fibonacci_spiral` when it is generated from
the formula: `resize(second + 1, 0)`, `fill` of the positions `≥ 1` with `1`, then
`adjacent_difference` with `std::plus<int>` from `[begin + 1, end - 1)` to `begin + 2`. -/
def generate_fibonacci (second : Nat) : List Int :=
  let fibonacci : List Int := List.replicate (second + 1) 0
  let fibonacci := std_fill fibonacci 1 fibonacci.length 1
  adjacent_difference plus_int fibonacci 1 (fibonacci.length - 1) 2

/-- Specification-side notion: the standard recurrence `F 0 = 0`, `F 1 = 1`,
`F (n + 2) = F (n + 1) + F n`, with the addition of 32-bit `int`. -/
def fibonacci_int32 : Nat → Int
  | 0 => 0
  | 1 => 1
  | n + 2 => plus_int (fibonacci_int32 (n + 1)) (fibonacci_int32 n)

/-! ## The session: the foreground loop of `main` and the background task -/

/-- The three `std::atomic<bool>` flags of `main`. -/
structure session_flags where
  started : Bool
  sequence_ready : Bool
  proceed : Bool
deriving DecidableEq, Repr

/-- What the file system answers: whether a path opens when `main` probes it,
whether it opens in the background task, and the `int`s an opened file holds. -/
structure environment where
  foreground_open : List Char → Bool
  worker_open : List Char → Bool
  file_data : List Char → List Int

/-- The position of the background task inside the lambda of `render_fibonacci_spiral`. -/
inductive worker_pc where
  /-- At the top of `while (true)`, about to evaluate `if (!sequence_ready)`. -/
  | loop_head
  /-- Inside the branch, about to produce the buffer `fibonacci`. -/
  | load_source
  /-- On the failure path, after `started = false`. -/
  | abort_sequence_ready
  /-- On the failure path, after `sequence_ready = false`. -/
  | abort_proceed
  /-- After `get_fibonacci_points` and the extent, about to store `sequence_ready = true`. -/
  | publish
  /-- About to evaluate `if (proceed)`. -/
  | proceed_check
  /-- The lambda has returned; the thread object is still joinable. -/
  | returned
  /-- The call of `get_fibonacci_points` on an empty range has killed the process. -/
  | crashed
deriving DecidableEq, Repr

/-- The flags, the thread object `worker_thread` with what its lambda captured,
the local `points` of the lambda, and counters of the observable actions. The
files written under `save` are not modelled. -/
structure session (α : Type) where
  flags : session_flags
  /-- The thread object: `none` when it is not joinable. -/
  worker_thread : Option worker_pc
  first_fibonacci_number : Nat
  second_fibonacci_number : Nat
  filename : List Char
  points : List (point2d α)
  /-- Number of calls of `render_fibonacci_spiral`. -/
  invocations : Nat
  /-- Number of calls of `get_fibonacci_points`. -/
  generator_calls : Nat
  /-- Number of executions of the drawing branch `if (proceed)`. -/
  render_passes : Nat
  /-- Number of calls of `AddRect`. -/
  rectangles : Nat
deriving DecidableEq, Repr

/-- The ways a call of `run` does not come back. -/
inductive failure where
  /-- A joinable `std::thread` is assigned to: `std::terminate`. -/
  | terminate
  /-- The call of `join` is still blocked when the step budget is used up. -/
  | join_blocked
  /-- The process has been killed in the background task. -/
  | crash
deriving DecidableEq, Repr

section session_model

variable {α : Type} [Field α]

/-- The state of `main` before its loop: all flags false, `worker_thread{}`. -/
def session.idle : session α :=
  ⟨⟨false, false, false⟩, none, 0, 0, [], [], 0, 0, 0, 0⟩

/-- The function `render_fibonacci_spiral`: `started = true`, then a thread running
the lambda from its first statement, with its own empty `points`. -/
def render_fibonacci_spiral (first_fibonacci_number second_fibonacci_number : Nat)
    (filename : List Char) (s : session α) : session α :=
  { s with
    flags := { s.flags with started := true }
    worker_thread := some worker_pc.loop_head
    first_fibonacci_number := first_fibonacci_number
    second_fibonacci_number := second_fibonacci_number
    filename := filename
    points := []
    invocations := s.invocations + 1 }

/-- The part of the lambda between the buffer being available and the store of
`sequence_ready`: the call of `get_fibonacci_points` on the samples from
`first_fibonacci_number` on. When that range is empty the call kills the
process and `sequence_ready` is never stored. -/
def compute_points (fibonacci : List Int) (s : session α) : session α :=
  match get_fibonacci_points_call (fibonacci.drop s.first_fibonacci_number) with
  | some points =>
    { s with
      points := points
      generator_calls := s.generator_calls + 1
      worker_thread := some worker_pc.publish }
  | none =>
    { s with
      generator_calls := s.generator_calls + 1
      worker_thread := some worker_pc.crashed }

/-- One step of the background task: the statements up to and including its
next access to a flag. -/
def worker_step (env : environment) (s : session α) : session α :=
  match s.worker_thread with
  | none => s
  | some worker_pc.loop_head =>
    if !s.flags.sequence_ready then { s with worker_thread := some worker_pc.load_source }
    else { s with worker_thread := some worker_pc.proceed_check }
  | some worker_pc.load_source =>
    if s.filename.isEmpty then compute_points (generate_fibonacci s.second_fibonacci_number) s
    else if !env.worker_open s.filename then
      { s with
        flags := { s.flags with started := false }
        worker_thread := some worker_pc.abort_sequence_ready }
    else compute_points (env.file_data s.filename) s
  | some worker_pc.abort_sequence_ready =>
    { s with
      flags := { s.flags with sequence_ready := false }
      worker_thread := some worker_pc.abort_proceed }
  | some worker_pc.abort_proceed =>
    { s with
      flags := { s.flags with proceed := false }
      worker_thread := some worker_pc.returned }
  | some worker_pc.publish =>
    { s with
      flags := { s.flags with sequence_ready := true }
      worker_thread := some worker_pc.proceed_check }
  | some worker_pc.proceed_check =>
    if s.flags.proceed then
      { s with
        render_passes := s.render_passes + 1
        rectangles := s.rectangles + (s.points.length - 1)
        worker_thread := some worker_pc.returned }
    else { s with worker_thread := some worker_pc.loop_head }
  | some worker_pc.returned => s
  | some worker_pc.crashed => s

/-- The background task taking `n` steps while the foreground does nothing. -/
def worker_steps (env : environment) : Nat → session α → session α
  | 0, s => s
  | n + 1, s => worker_steps env n (worker_step env s)

/-- The store `proceed = true` of `run`. -/
def store_proceed (s : session α) : session α :=
  { s with flags := { s.flags with proceed := true } }

/-- The three stores `sequence_ready = false; proceed = false; started = false` of `run`. -/
def reset_flags (s : session α) : session α :=
  { s with flags := ⟨false, false, false⟩ }

/-- What `if (worker_thread.joinable()) worker_thread.join();` yields at once:
the state itself when the thread object is not joinable, the state with the
thread object released when the lambda has returned, nothing otherwise. -/
def join_now (s : session α) : Option (session α) :=
  match s.worker_thread with
  | none => some s
  | some worker_pc.returned => some { s with worker_thread := none }
  | some _ => none

/-- The statement `if (worker_thread.joinable()) worker_thread.join();`: the
background task runs until its lambda has returned, within `fuel` steps. It does
not come back when the process has been killed. -/
def join (env : environment) : Nat → session α → Except failure (session α)
  | 0, s =>
    match join_now s with
    | some r => .ok r
    | none =>
      if s.worker_thread = some worker_pc.crashed then .error failure.crash
      else .error failure.join_blocked
  | n + 1, s =>
    match join_now s with
    | some r => .ok r
    | none =>
      if s.worker_thread = some worker_pc.crashed then .error failure.crash
      else join env n (worker_step env s)

/-- The lambda `run` of `main`; in a process the background task has killed it
is never reached. -/
def run (env : environment) (fuel : Nat) (f1 f2 : Int) (filename : List Char) (s : session α) :
    Except failure (session α) :=
  if s.worker_thread = some worker_pc.crashed then .error failure.crash
  else if !s.flags.started then
    if s.worker_thread.isSome then .error failure.terminate
    else .ok (render_fibonacci_spiral f1.toNat f2.toNat filename s)
  else if s.flags.sequence_ready then
    match join env fuel (store_proceed s) with
    | .ok s => .ok (reset_flags s)
    | .error e => .error e
  else .ok s

/-- The variables of `main` the two request blocks read and write. -/
structure main_state (α : Type) where
  pressed : Bool
  load : Bool
  session : session α

/-- The block `if (load && !pressed)` of `main`; `load_filename_buf` is the text
of the path buffer. -/
def load_request_step (env : environment) (fuel : Nat) (load_filename_buf : List Char)
    (m : main_state α) : Except failure (main_state α) :=
  if m.load && !m.pressed then
    let filename := load_filename_buf
    let sub : List Char :=
      if filename.length > 4 then filename.drop (filename.length - 4) else []
    if !filename.isEmpty && sub == ['.', 'b', 'i', 'n'] && env.foreground_open filename then
      match run env fuel 0 0 filename m.session with
      | .ok s => .ok { m with session := s }
      | .error e => .error e
    else .ok { m with load := false }
  else .ok m

/-- The block `if (pressed)` of `main`; `f1` and `f2` are the values `std::atoi`
returns for the two number buffers. -/
def numeric_request_step (env : environment) (fuel : Nat) (f1 f2 : Int)
    (m : main_state α) : Except failure (main_state α) :=
  if m.pressed then
    if f1 ≥ 0 && f2 > 0 && f2 > f1 then
      match run env fuel f1 f2 [] m.session with
      | .ok s => .ok { m with session := s }
      | .error e => .error e
    else .ok m
  else .ok m

end session_model

/-! ## The running segment of the generator -/

section running

variable {α : Type} [Field α]

/-- The accumulator of `std::accumulate` in `get_fibonacci_points` once the first
`i` entries of `transformed` have been folded: the running segment after `i` steps. -/
def running_segment (input : List Int) (i : Nat) : vector2d α :=
  (((transformed input).take i).foldl reduce_op
    ⟨⟨⟨0, 0⟩, ⟨1, 0⟩⟩, circular_scale_iterator.ctor, []⟩).v

/-- Specification-side notion: the displacement `tip − anchor` of a segment. -/
def vector2d.displacement (v : vector2d α) : point2d α :=
  ⟨v.p2.x - v.p1.x, v.p2.y - v.p1.y⟩

/-- Specification-side notion: the standard Fibonacci input `[F_0, …, F_m]`. -/
def fibonacci_input (m : Nat) : List Int :=
  (List.range (m + 1)).map (fun i => (Nat.fib i : Int))

end running

/-! ## Auxiliary facts about the pair list and the fold -/

section generator_lemmas

variable {α : Type} [Field α]

/-- The call of `std::transform` writes one pair per consecutive pair of samples. -/
theorem transformed_written_length (input : List Int) :
    (List.zipWith (transform_op : Int → Int → α × Int) input.dropLast input.tail).length
      = input.length - 1 := by
  simp

/-- The pair list has `count = n * segments` entries. -/
theorem transformed_length (input : List Int) :
    (transformed input : List (α × Int)).length = input.length * segments := by
  simp only [transformed, List.length_append, List.length_drop, List.length_replicate,
    transformed_written_length, segments]
  omega

/-- Entry `k` of the pair list is `transform_op` of samples `k` and `k + 1`. -/
theorem transformed_getElem?_of_lt (input : List Int) (k : Nat) (prev next : Int)
    (hp : input[k]? = some prev) (hn : input[k + 1]? = some next) :
    (transformed input : List (α × Int))[k]? = some (transform_op prev next) := by
  have hlt : k + 1 < input.length := by
    rcases List.getElem?_eq_some_iff.mp hn with ⟨h, _⟩
    exact h
  have hk : k < (List.zipWith (transform_op : Int → Int → α × Int)
      input.dropLast input.tail).length := by
    rw [transformed_written_length]; omega
  simp only [transformed]
  rw [List.getElem?_append_left hk, List.getElem?_zipWith, List.getElem?_tail,
    List.getElem?_dropLast, hn]
  have : k < input.length - 1 := by omega
  simp [this, hp]

/-- Every call of `reduce_op` appends exactly one point. -/
theorem foldl_reduce_op_points_length (l : List (α × Int)) (s : reduce_state α) :
    (l.foldl reduce_op s).points.length = s.points.length + l.length := by
  induction l generalizing s with
  | nil => simp
  | cons p t ih =>
    rw [List.foldl_cons, ih]
    obtain ⟨k, d⟩ := p
    simp [reduce_op]
    omega

/-- The number of returned points is `segments * n`. -/
theorem get_fibonacci_points_length (input : List Int) :
    (get_fibonacci_points input : List (point2d α)).length = segments * input.length := by
  simp [get_fibonacci_points, foldl_reduce_op_points_length, transformed_length, Nat.mul_comm]

/-- The segment `v_j` only depends on the first `j` pairs. -/
theorem spec_running_segment_append (l l2 : List (α × Int)) (j : Nat) (hj : j ≤ l.length) :
    spec_running_segment (l ++ l2) j = spec_running_segment l j := by
  induction j with
  | zero => rfl
  | succ i ih =>
    have hi : i < l.length := by omega
    simp only [spec_running_segment]
    rw [ih (by omega), List.getD_append _ _ _ _ hi]

/-- The state reached by `std::accumulate` over a pair list `l`: the segment is
`v_|l|`, the cursor is in state `|l| mod 4`, and the points are the tips of
`v_0, …, v_(|l|-1)` in this order. -/
theorem foldl_reduce_op_eq (l : List (α × Int)) :
    l.foldl reduce_op ⟨⟨⟨0, 0⟩, ⟨1, 0⟩⟩, circular_scale_iterator.ctor, []⟩ =
      ⟨spec_running_segment l l.length,
       ⟨⟨l.length % 4, Nat.mod_lt _ (by decide)⟩⟩,
       (List.range l.length).map (fun i => (spec_running_segment l i).p2)⟩ := by
  induction l using List.reverseRecOn with
  | nil => rfl
  | append_singleton l p ih =>
    rw [List.foldl_append, ih]
    obtain ⟨k, d⟩ := p
    simp only [List.foldl_cons, List.foldl_nil, reduce_op, List.length_append,
      List.length_singleton, List.range_succ, List.map_append, List.map_cons, List.map_nil]
    have hv : spec_running_segment (l ++ [(k, d)]) (l.length + 1) =
        rotation_matrix.static_matrix_2f_90d.mul_vector
          ((circular_scale_iterator.scale_translate ⟨⟨l.length % 4, Nat.mod_lt _ (by decide)⟩⟩
            k (d : α)).mul_vector (spec_running_segment l l.length)) := by
      simp only [spec_running_segment]
      rw [spec_running_segment_append l [(k, d)] l.length (le_refl _)]
      simp
    have hpts : (List.range l.length).map (fun i => (spec_running_segment (l ++ [(k, d)]) i).p2)
        = (List.range l.length).map (fun i => (spec_running_segment l i).p2) := by
      apply List.map_congr_left
      intro i hi
      rw [spec_running_segment_append l [(k, d)] i (by
        have := List.mem_range.mp hi; omega)]
    rw [hv, hpts, spec_running_segment_append l [(k, d)] l.length (le_refl _)]
    congr 2
    simp [circular_scale_iterator.inc, Nat.add_mod]

/-- A value-initialised pair leaves a zero-length segment at the origin where it is. -/
theorem reduce_op_zero_pair_origin (it : circular_scale_iterator) (pts : List (point2d α)) :
    reduce_op ⟨⟨⟨0, 0⟩, ⟨0, 0⟩⟩, it, pts⟩ ((0 : α), (0 : Int)) =
      ⟨⟨⟨0, 0⟩, ⟨0, 0⟩⟩, it.inc, pts ++ [⟨0, 0⟩]⟩ := by
  rcases it with ⟨i⟩
  fin_cases i <;>
  simp [reduce_op, circular_scale_iterator.scale_translate,
    circular_scale_iterator.transformations, circular_scale_iterator.ctor,
    scale_translate_matrix.set, scale_translate_matrix.ctor, scale_translate_matrix.cols,
    scale_translate_matrix.rows, scale_translate_matrix.mul_vector,
    scale_translate_matrix.mul_point, scale_translate_matrix.scale_x,
    scale_translate_matrix.scale_y, scale_translate_matrix.translate_x,
    scale_translate_matrix.translate_y, rotation_matrix.mul_vector, rotation_matrix.mul_point,
    rotation_matrix.static_matrix_2f_90d, rotation_matrix.cos, rotation_matrix.sin]

/-- Folding value-initialised pairs from a zero-length segment at the origin
appends one copy of the origin per pair. -/
theorem foldl_reduce_op_zero_pairs_origin (n : Nat) (it : circular_scale_iterator)
    (pts : List (point2d α)) :
    ((List.replicate n ((0 : α), (0 : Int))).foldl reduce_op ⟨⟨⟨0, 0⟩, ⟨0, 0⟩⟩, it, pts⟩).points
      = pts ++ List.replicate n ⟨0, 0⟩ := by
  induction n generalizing it pts with
  | zero => simp
  | succ m ih =>
    rw [List.replicate_succ, List.foldl_cons, reduce_op_zero_pair_origin, ih,
      List.append_assoc]
    rfl

/-- A value-initialised pair collapses the initial unit segment onto the origin. -/
theorem reduce_op_zero_pair_initial :
    reduce_op ⟨⟨⟨0, 0⟩, ⟨1, 0⟩⟩, circular_scale_iterator.ctor, []⟩ ((0 : α), (0 : Int)) =
      ⟨⟨⟨0, 0⟩, ⟨0, 0⟩⟩, circular_scale_iterator.ctor.inc, [⟨1, 0⟩]⟩ := by
  simp [reduce_op, circular_scale_iterator.scale_translate,
    circular_scale_iterator.transformations, circular_scale_iterator.ctor,
    scale_translate_matrix.set, scale_translate_matrix.ctor, scale_translate_matrix.cols,
    scale_translate_matrix.rows, scale_translate_matrix.mul_vector,
    scale_translate_matrix.mul_point, scale_translate_matrix.scale_x,
    scale_translate_matrix.scale_y, scale_translate_matrix.translate_x,
    scale_translate_matrix.translate_y, rotation_matrix.mul_vector, rotation_matrix.mul_point,
    rotation_matrix.static_matrix_2f_90d, rotation_matrix.cos, rotation_matrix.sin]

end generator_lemmas

/-! ## The spiral point generator -/

section generator_theorems

variable {α : Type} [Field α]

/-- C1 (amended): for every input of length `n ≥ 2`, `get_fibonacci_points` returns
exactly `segments · n = 10·n` points, one per entry of the pair list it folds over. -/
theorem get_fibonacci_points_length_law (input : List Int) (h : 2 ≤ input.length) :
    (get_fibonacci_points input : List (point2d α)).length = 10 * input.length := by
  have _ := h
  rw [get_fibonacci_points_length, segments]

/-- C1, witness: the 7-sample input `[0,1,1,2,3,5,8]` yields `10 · 7` points. -/
theorem get_fibonacci_points_length_law_witness :
    2 ≤ [(0 : Int), 1, 1, 2, 3, 5, 8].length ∧
    (get_fibonacci_points [0, 1, 1, 2, 3, 5, 8] : List (point2d ℚ)).length
      = 10 * [(0 : Int), 1, 1, 2, 3, 5, 8].length :=
  ⟨by decide, get_fibonacci_points_length_law [0, 1, 1, 2, 3, 5, 8] (by decide)⟩

/-- C1, counterexample: on the 7-sample input `[0,1,1,2,3,5,8]` the generator
returns 70 points, not `7 − 1 = 6`. -/
theorem get_fibonacci_points_length_counterexample :
    (get_fibonacci_points [0, 1, 1, 2, 3, 5, 8] : List (point2d ℚ)).length = 70 ∧
    (get_fibonacci_points [0, 1, 1, 2, 3, 5, 8] : List (point2d ℚ)).length
      ≠ [(0 : Int), 1, 1, 2, 3, 5, 8].length - 1 := by
  decide

/-- C3 (amended): for every single-element input, `get_fibonacci_points` returns
`segments · 1 = 10` points: the initial tip `(1,0)` followed by nine copies of `(0,0)`. -/
theorem get_fibonacci_points_singleton (a : Int) :
    (get_fibonacci_points [a] : List (point2d α)) = ⟨1, 0⟩ :: List.replicate 9 ⟨0, 0⟩ := by
  have ht : (transformed [a] : List (α × Int)) =
      ((0 : α), (0 : Int)) :: List.replicate 9 ((0 : α), (0 : Int)) := by
    simp [transformed, segments, List.replicate]
  simp only [get_fibonacci_points]
  rw [ht, List.foldl_cons, reduce_op_zero_pair_initial, foldl_reduce_op_zero_pairs_origin]
  rfl

/-- C3, counterexample: the single-element input `[5]` does not yield an empty
point sequence; it yields 10 points. -/
theorem get_fibonacci_points_singleton_counterexample :
    (get_fibonacci_points [5] : List (point2d ℚ)) ≠ [] ∧
    (get_fibonacci_points [5] : List (point2d ℚ)).length = 10 := by
  decide

/-- C4 (amended): for every `k` with `k + 1 < n`, entry `k` of the pair list is
computed from `(prev, next) = (input[k], input[k+1])`; it is `(1, 0)` when
`prev = 0` and `(next / prev, d)` otherwise, where `d` is `next − prev` reduced to
the 32-bit `int` range; `d = next − prev` whenever that difference is an `int`. -/
theorem transformed_derived_pair (input : List Int) (k : Nat) (prev next : Int)
    (hp : input[k]? = some prev) (hn : input[k + 1]? = some next) :
    (transformed input : List (α × Int))[k]? =
      some (if prev = 0 then ((1 : α), (0 : Int))
        else ((next : α) / (prev : α), (next - prev + 2 ^ 31) % 2 ^ 32 - 2 ^ 31)) ∧
    (-2 ^ 31 ≤ next - prev → next - prev < 2 ^ 31 →
      (transformed input : List (α × Int))[k]? =
        some (if prev = 0 then ((1 : α), (0 : Int))
          else ((next : α) / (prev : α), next - prev))) := by
  have h1 : (transformed input : List (α × Int))[k]? =
      some (if prev = 0 then ((1 : α), (0 : Int))
        else ((next : α) / (prev : α), (next - prev + 2 ^ 31) % 2 ^ 32 - 2 ^ 31)) := by
    rw [transformed_getElem?_of_lt input k prev next hp hn]
    rfl
  refine ⟨h1, ?_⟩
  intro hlo hhi
  rw [h1]
  have e : (next - prev + 2 ^ 31) % 2 ^ 32 - 2 ^ 31 = next - prev := by omega
  rw [e]

/-- C4, witness: on `[0,1,1,2,3,5,8]` the pair of index 3 comes from the samples
`2` and `3` and is `(3/2, 1)`. -/
theorem transformed_derived_pair_witness :
    [(0 : Int), 1, 1, 2, 3, 5, 8][3]? = some 2 ∧ [(0 : Int), 1, 1, 2, 3, 5, 8][3 + 1]? = some 3 ∧
    (transformed [0, 1, 1, 2, 3, 5, 8] : List (ℚ × Int))[3]? =
      some (if (2 : Int) = 0 then ((1 : ℚ), (0 : Int))
        else (((3 : Int) : ℚ) / ((2 : Int) : ℚ), (3 - 2 + 2 ^ 31) % 2 ^ 32 - 2 ^ 31)) :=
  ⟨rfl, rfl, (transformed_derived_pair [0, 1, 1, 2, 3, 5, 8] 3 2 3 rfl rfl).1⟩

/-- C4, counterexample: for the samples `INT_MIN, INT_MAX` the derived distance is
`-1`, not `next − prev = 4294967295`. -/
theorem transformed_derived_pair_counterexample :
    [(-2147483648 : Int), 2147483647][0]? = some (-2147483648) ∧
    [(-2147483648 : Int), 2147483647][0 + 1]? = some 2147483647 ∧
    ((transformed [-2147483648, 2147483647] : List (ℚ × Int))[0]?).map Prod.snd = some (-1) ∧
    (transformed [-2147483648, 2147483647] : List (ℚ × Int))[0]? ≠
      some (if (-2147483648 : Int) = 0 then ((1 : ℚ), (0 : Int))
        else (((2147483647 : Int) : ℚ) / ((-2147483648 : Int) : ℚ),
          2147483647 - (-2147483648))) := by
  have h : ((transformed [-2147483648, 2147483647] : List (ℚ × Int))[0]?).map Prod.snd
      = some (-1) := by
    decide
  refine ⟨rfl, rfl, h, ?_⟩
  intro hc
  rw [hc] at h
  revert h
  decide

end generator_theorems

/-! ## The affine kernel and the cursor -/

section kernel_theorems

variable {α : Type} [Field α]

/-- C5: a scale-translate matrix `(kx, ky, tx, ty)` sends the segment with anchor `a`
and tip `t` to the segment with anchor `a + (tx, ty)` and tip
`a + (kx·(t.x − a.x) + tx, ky·(t.y − a.y) + ty)`. -/
theorem scale_translate_mul_vector_eq (kx ky tx ty : α) (v : vector2d α) :
    (scale_translate_matrix.ctor4 kx ky tx ty).mul_vector v =
      ⟨⟨v.p1.x + tx, v.p1.y + ty⟩,
       ⟨v.p1.x + (kx * (v.p2.x - v.p1.x) + tx), v.p1.y + (ky * (v.p2.y - v.p1.y) + ty)⟩⟩ := by
  simp [scale_translate_matrix.mul_vector, scale_translate_matrix.mul_point,
    scale_translate_matrix.ctor4, scale_translate_matrix.scale_x,
    scale_translate_matrix.scale_y, scale_translate_matrix.translate_x,
    scale_translate_matrix.translate_y, scale_translate_matrix.cols,
    scale_translate_matrix.rows, add_comm]

/-- C6: a rotation matrix applied to a segment keeps the anchor unchanged and
sends the tip to `anchor + R·(tip − anchor)`; for the shared 90° matrix that tip
is `anchor + (−(t.y − a.y), t.x − a.x)`. -/
theorem rotation_mul_vector_anchor (R : rotation_matrix α) (v : vector2d α) :
    (R.mul_vector v).p1 = v.p1 ∧
    (R.mul_vector v).p2 =
      ⟨v.p1.x + (R.mul_point ⟨v.p2.x - v.p1.x, v.p2.y - v.p1.y⟩).x,
       v.p1.y + (R.mul_point ⟨v.p2.x - v.p1.x, v.p2.y - v.p1.y⟩).y⟩ ∧
    (rotation_matrix.static_matrix_2f_90d.mul_vector v : vector2d α) =
      ⟨v.p1, ⟨v.p1.x + -(v.p2.y - v.p1.y), v.p1.y + (v.p2.x - v.p1.x)⟩⟩ := by
  refine ⟨rfl, ?_, ?_⟩
  · simp [rotation_matrix.mul_vector, add_comm]
  · simp [rotation_matrix.mul_vector, rotation_matrix.mul_point,
      rotation_matrix.static_matrix_2f_90d, rotation_matrix.cos, rotation_matrix.sin, add_comm]

/-- C7: the shared 90° matrix sends `(x, y)` to `(x·cos − y·sin, x·sin + y·cos)`,
which is `(−y, x)`. -/
theorem rotation_90_mul_point (x y : α) :
    (rotation_matrix.static_matrix_2f_90d.mul_point ⟨x, y⟩ : point2d α) =
      ⟨x * rotation_matrix.cos - y * rotation_matrix.sin,
       x * rotation_matrix.sin + y * rotation_matrix.cos⟩ ∧
    (rotation_matrix.static_matrix_2f_90d.mul_point ⟨x, y⟩ : point2d α) = ⟨-y, x⟩ := by
  constructor <;>
  simp [rotation_matrix.mul_point, rotation_matrix.static_matrix_2f_90d,
    rotation_matrix.cos, rotation_matrix.sin]

/-- C8: `scale_translate k d` returns `[[k,0,−d],[0,1,0]]` in state 0,
`[[1,0,0],[0,k,−d]]` in state 1, `[[k,0,d],[0,1,0]]` in state 2 and
`[[1,0,0],[0,k,d]]` in state 3. -/
theorem scale_translate_by_state (k d : α) :
    (circular_scale_iterator.scale_translate ⟨0⟩ k d : scale_translate_matrix α)
      = ⟨[k, 0, -d, 0, 1, 0]⟩ ∧
    (circular_scale_iterator.scale_translate ⟨1⟩ k d : scale_translate_matrix α)
      = ⟨[1, 0, 0, 0, k, -d]⟩ ∧
    (circular_scale_iterator.scale_translate ⟨2⟩ k d : scale_translate_matrix α)
      = ⟨[k, 0, d, 0, 1, 0]⟩ ∧
    (circular_scale_iterator.scale_translate ⟨3⟩ k d : scale_translate_matrix α)
      = ⟨[1, 0, 0, 0, k, d]⟩ := by
  refine ⟨?_, ?_, ?_, ?_⟩ <;>
  simp [circular_scale_iterator.scale_translate, circular_scale_iterator.transformations,
    scale_translate_matrix.set, scale_translate_matrix.ctor, scale_translate_matrix.cols]

/-- C9: `operator++` sends state `i` to `(i + 1) mod 4`, so the states run
0→1→2→3→0 and no state is terminal; after four advances `scale_translate`
returns the same matrix as before, for every scale and distance. -/
theorem cursor_cycle (it : circular_scale_iterator) :
    it.inc.i.val = (it.i.val + 1) % 4 ∧
    it.inc ≠ it ∧
    (circular_scale_iterator.inc ⟨0⟩ = ⟨1⟩ ∧ circular_scale_iterator.inc ⟨1⟩ = ⟨2⟩ ∧
      circular_scale_iterator.inc ⟨2⟩ = ⟨3⟩ ∧ circular_scale_iterator.inc ⟨3⟩ = ⟨0⟩) ∧
    it.inc.inc.inc.inc = it ∧
    ∀ k d : α, it.inc.inc.inc.inc.scale_translate k d = it.scale_translate k d := by
  have h4 : it.inc.inc.inc.inc = it := by
    rcases it with ⟨i⟩
    fin_cases i <;> rfl
  refine ⟨rfl, ?_, ⟨rfl, rfl, rfl, rfl⟩, h4, ?_⟩
  · rcases it with ⟨i⟩
    fin_cases i <;> decide
  · intro k d
    rw [h4]

/-- C10: the product of the shared 90° matrix with itself is `[[−1,0],[0,−1]]`;
applied to a point it agrees with applying the 90° matrix twice, giving `(−x, −y)`. -/
theorem rotation_90_squared (p : point2d α) :
    (rotation_matrix.mul rotation_matrix.static_matrix_2f_90d
      rotation_matrix.static_matrix_2f_90d : rotation_matrix α) = ⟨[-1, 0, 0, -1]⟩ ∧
    (rotation_matrix.mul rotation_matrix.static_matrix_2f_90d
      rotation_matrix.static_matrix_2f_90d : rotation_matrix α).mul_point p =
      rotation_matrix.static_matrix_2f_90d.mul_point
        (rotation_matrix.static_matrix_2f_90d.mul_point p) ∧
    (rotation_matrix.static_matrix_2f_90d.mul_point
        (rotation_matrix.static_matrix_2f_90d.mul_point p) : point2d α) = ⟨-p.x, -p.y⟩ := by
  have hm : (rotation_matrix.mul rotation_matrix.static_matrix_2f_90d
      rotation_matrix.static_matrix_2f_90d : rotation_matrix α) = ⟨[-1, 0, 0, -1]⟩ := by
    simp [rotation_matrix.mul, rotation_matrix.get, rotation_matrix.set,
      rotation_matrix.static_matrix_2f_90d, rotation_matrix.cos, rotation_matrix.sin,
      rotation_matrix.cols]
  refine ⟨hm, ?_, ?_⟩
  · rw [hm]
    simp [rotation_matrix.mul_point, rotation_matrix.static_matrix_2f_90d,
      rotation_matrix.cos, rotation_matrix.sin]
  · simp [rotation_matrix.mul_point, rotation_matrix.static_matrix_2f_90d,
      rotation_matrix.cos, rotation_matrix.sin]

end kernel_theorems

/-! ## Orthonormality, degenerate segments and the shape invariant -/

section kernel_theorems_2

variable {α : Type} [Field α]

/-- A matrix `[[c, −s],[s, c]]` with `c² + s² = 1` has determinant 1, satisfies
`R·Rᵗ = I` and preserves the squared length of every point. -/
theorem rotation_of_cos_sin_orthonormal (c s : α) (h : c * c + s * s = 1) (p : point2d α) :
    rotation_matrix.det (⟨[c, -s, s, c]⟩ : rotation_matrix α) = 1 ∧
    rotation_matrix.mul (⟨[c, -s, s, c]⟩ : rotation_matrix α)
      (rotation_matrix.transpose ⟨[c, -s, s, c]⟩) = rotation_matrix.identity ∧
    ((⟨[c, -s, s, c]⟩ : rotation_matrix α).mul_point p).norm_sq = p.norm_sq := by
  have h2 : s * s + c * c = 1 := by rw [add_comm]; exact h
  refine ⟨?_, ?_, ?_⟩
  · simp [rotation_matrix.det, rotation_matrix.get, rotation_matrix.cols]
    exact h
  · simp [rotation_matrix.mul, rotation_matrix.transpose, rotation_matrix.get,
      rotation_matrix.set, rotation_matrix.cols, rotation_matrix.identity,
      rotation_matrix.static_matrix_2f_90d, h, h2, mul_comm]
  · simp only [rotation_matrix.mul_point, point2d.norm_sq, List.getD_cons_zero,
      List.getD_cons_succ]
    linear_combination (p.x * p.x + p.y * p.y) * h

/-- C11: over the reals, the generic rotation matrix built from `cos` and `sin`
(for every template angle, and for every real angle `θ`) has determinant 1,
satisfies `R·Rᵗ = I` and preserves the length of every point; the shared 90°
matrix has the same three properties exactly, over every field. -/
theorem rotation_orthonormal (Angle : Int) (θ : ℝ) (p : point2d ℝ) (q : point2d α) :
    (rotation_matrix.det (rotation_matrix.ctor Real.cos Real.sin Real.pi Angle) = 1 ∧
      rotation_matrix.mul (rotation_matrix.ctor Real.cos Real.sin Real.pi Angle)
        (rotation_matrix.transpose (rotation_matrix.ctor Real.cos Real.sin Real.pi Angle))
        = rotation_matrix.identity ∧
      Real.sqrt ((rotation_matrix.ctor Real.cos Real.sin Real.pi Angle).mul_point p).norm_sq
        = Real.sqrt p.norm_sq) ∧
    (rotation_matrix.det (⟨[Real.cos θ, -Real.sin θ, Real.sin θ, Real.cos θ]⟩ :
        rotation_matrix ℝ) = 1 ∧
      rotation_matrix.mul (⟨[Real.cos θ, -Real.sin θ, Real.sin θ, Real.cos θ]⟩ :
        rotation_matrix ℝ)
        (rotation_matrix.transpose ⟨[Real.cos θ, -Real.sin θ, Real.sin θ, Real.cos θ]⟩)
        = rotation_matrix.identity ∧
      Real.sqrt ((⟨[Real.cos θ, -Real.sin θ, Real.sin θ, Real.cos θ]⟩ :
        rotation_matrix ℝ).mul_point p).norm_sq = Real.sqrt p.norm_sq) ∧
    (rotation_matrix.det (rotation_matrix.static_matrix_2f_90d : rotation_matrix α) = 1 ∧
      rotation_matrix.mul (rotation_matrix.static_matrix_2f_90d : rotation_matrix α)
        (rotation_matrix.transpose rotation_matrix.static_matrix_2f_90d)
        = rotation_matrix.identity ∧
      ((rotation_matrix.static_matrix_2f_90d : rotation_matrix α).mul_point q).norm_sq
        = q.norm_sq) := by
  have hθ : ∀ t : ℝ, Real.cos t * Real.cos t + Real.sin t * Real.sin t = 1 := by
    intro t
    have := Real.cos_sq_add_sin_sq t
    nlinarith [this]
  have h90 : (rotation_matrix.cos : α) * rotation_matrix.cos
      + rotation_matrix.sin * rotation_matrix.sin = 1 := by
    simp [rotation_matrix.cos, rotation_matrix.sin]
  refine ⟨?_, ?_, ?_⟩
  · obtain ⟨h1, h2, h3⟩ := rotation_of_cos_sin_orthonormal
      (Real.cos ((Angle : ℝ) * Real.pi / 180)) (Real.sin ((Angle : ℝ) * Real.pi / 180))
      (hθ _) p
    exact ⟨h1, h2, by rw [rotation_matrix.ctor, h3]⟩
  · obtain ⟨h1, h2, h3⟩ := rotation_of_cos_sin_orthonormal (Real.cos θ) (Real.sin θ) (hθ _) p
    exact ⟨h1, h2, by rw [h3]⟩
  · exact rotation_of_cos_sin_orthonormal rotation_matrix.cos rotation_matrix.sin h90 q

/-- C12: a scale-translate matrix `(kx, ky, tx, ty)` sends the zero-length segment
at `a` to the zero-length segment at `a + (tx, ty)`, whatever the scale factors. -/
theorem scale_translate_mul_vector_degenerate (kx ky tx ty : α) (a : point2d α) :
    (scale_translate_matrix.ctor4 kx ky tx ty).mul_vector ⟨a, a⟩ =
      ⟨⟨a.x + tx, a.y + ty⟩, ⟨a.x + tx, a.y + ty⟩⟩ ∧
    ((scale_translate_matrix.ctor4 kx ky tx ty).mul_vector ⟨a, a⟩).p1 =
      ((scale_translate_matrix.ctor4 kx ky tx ty).mul_vector ⟨a, a⟩).p2 := by
  constructor <;>
  simp [scale_translate_matrix.mul_vector, scale_translate_matrix.mul_point,
    scale_translate_matrix.ctor4, scale_translate_matrix.scale_x,
    scale_translate_matrix.scale_y, scale_translate_matrix.translate_x,
    scale_translate_matrix.translate_y, scale_translate_matrix.cols,
    scale_translate_matrix.rows, add_comm]

/-- A public setter never touches the storage cells 1 and 3. -/
theorem apply_setter_off_diagonal (m : scale_translate_matrix α) (c : setter_call α) :
    (m.apply_setter c).get 0 1 = m.get 0 1 ∧ (m.apply_setter c).get 1 0 = m.get 1 0 := by
  cases c <;>
  simp [scale_translate_matrix.apply_setter, scale_translate_matrix.get,
    scale_translate_matrix.set_scale_x, scale_translate_matrix.set_scale_y,
    scale_translate_matrix.set_translate_x, scale_translate_matrix.set_translate_y,
    scale_translate_matrix.cols, scale_translate_matrix.rows, List.getElem?_set]

/-- Any sequence of public setter calls leaves the storage cells 1 and 3 as they were. -/
theorem foldl_apply_setter_off_diagonal (calls : List (setter_call α))
    (m : scale_translate_matrix α) :
    (calls.foldl scale_translate_matrix.apply_setter m).get 0 1 = m.get 0 1 ∧
    (calls.foldl scale_translate_matrix.apply_setter m).get 1 0 = m.get 1 0 := by
  induction calls generalizing m with
  | nil => exact ⟨rfl, rfl⟩
  | cons c t ih =>
    rw [List.foldl_cons]
    obtain ⟨h1, h2⟩ := ih (m.apply_setter c)
    obtain ⟨g1, g2⟩ := apply_setter_off_diagonal m c
    exact ⟨h1.trans g1, h2.trans g2⟩

/-- The matrix built by the cursor has zero off-diagonal scale terms. -/
theorem scale_translate_off_diagonal (it : circular_scale_iterator) (k d : α) :
    (it.scale_translate k d).get 0 1 = 0 ∧ (it.scale_translate k d).get 1 0 = 0 := by
  rcases it with ⟨i⟩
  fin_cases i <;>
  simp [circular_scale_iterator.scale_translate, circular_scale_iterator.transformations,
    scale_translate_matrix.set, scale_translate_matrix.get, scale_translate_matrix.ctor,
    scale_translate_matrix.cols]

/-- C13: every matrix obtained from the default constructor, from one of the two
value constructors or from the cursor's `scale_translate` in any state, followed
by any sequence of public setter calls, has entries `(0,1)` and `(1,0)` equal to
zero; and each row of the cursor's table writes the scale into a diagonal cell
and the distance into a cell of the translation column, both inside the 2×3 matrix. -/
theorem scale_translate_matrix_off_diagonal_zero (calls : List (setter_call α))
    (kx ky tx ty k d : α) (it : circular_scale_iterator) :
    ((calls.foldl scale_translate_matrix.apply_setter scale_translate_matrix.ctor).get 0 1 = 0 ∧
      (calls.foldl scale_translate_matrix.apply_setter scale_translate_matrix.ctor).get 1 0 = 0) ∧
    ((calls.foldl scale_translate_matrix.apply_setter
        (scale_translate_matrix.ctor2 kx ky)).get 0 1 = 0 ∧
      (calls.foldl scale_translate_matrix.apply_setter
        (scale_translate_matrix.ctor2 kx ky)).get 1 0 = 0) ∧
    ((calls.foldl scale_translate_matrix.apply_setter
        (scale_translate_matrix.ctor4 kx ky tx ty)).get 0 1 = 0 ∧
      (calls.foldl scale_translate_matrix.apply_setter
        (scale_translate_matrix.ctor4 kx ky tx ty)).get 1 0 = 0) ∧
    ((calls.foldl scale_translate_matrix.apply_setter (it.scale_translate k d)).get 0 1 = 0 ∧
      (calls.foldl scale_translate_matrix.apply_setter (it.scale_translate k d)).get 1 0 = 0) ∧
    (∀ i : Fin 4,
      (circular_scale_iterator.transformations i).1 < scale_translate_matrix.rows ∧
      (circular_scale_iterator.transformations i).2.1 < scale_translate_matrix.cols ∧
      (circular_scale_iterator.transformations i).1 =
        (circular_scale_iterator.transformations i).2.1 ∧
      (circular_scale_iterator.transformations i).2.2.2.1 < scale_translate_matrix.rows ∧
      (circular_scale_iterator.transformations i).2.2.2.2 = scale_translate_matrix.cols - 1) := by
  refine ⟨?_, ?_, ?_, ?_, ?_⟩
  · obtain ⟨h1, h2⟩ := foldl_apply_setter_off_diagonal calls
      (scale_translate_matrix.ctor : scale_translate_matrix α)
    rw [h1, h2]
    simp [scale_translate_matrix.get, scale_translate_matrix.ctor, scale_translate_matrix.cols]
  · obtain ⟨h1, h2⟩ := foldl_apply_setter_off_diagonal calls
      (scale_translate_matrix.ctor2 kx ky)
    rw [h1, h2]
    simp [scale_translate_matrix.get, scale_translate_matrix.ctor2, scale_translate_matrix.cols]
  · obtain ⟨h1, h2⟩ := foldl_apply_setter_off_diagonal calls
      (scale_translate_matrix.ctor4 kx ky tx ty)
    rw [h1, h2]
    simp [scale_translate_matrix.get, scale_translate_matrix.ctor4, scale_translate_matrix.cols]
  · obtain ⟨h1, h2⟩ := foldl_apply_setter_off_diagonal calls (it.scale_translate k d)
    rw [h1, h2]
    exact scale_translate_off_diagonal it k d
  · decide

end kernel_theorems_2

/-! ## The generated Fibonacci buffer -/

section fibonacci_buffer

/-- Inside the range of `int` the reduction does nothing. -/
theorem wrap_int32_of_range (x : Int) (h0 : 0 ≤ x) (h1 : x < 2 ^ 31) : wrap_int32 x = x := by
  unfold wrap_int32
  omega

/-- The prefix of the recurrence grows by one entry. -/
theorem map_fibonacci_int32_range_succ (n : Nat) :
    (List.range (n + 1)).map fibonacci_int32 =
      (List.range n).map fibonacci_int32 ++ [fibonacci_int32 n] := by
  rw [List.range_succ, List.map_append]
  rfl

/-- Invariant of the loop of `std::adjacent_difference` on the buffer: when the
positions `0..i` hold the recurrence and `r` ones follow, `n ≤ r` iterations
extend the recurrence by `n` entries. -/
theorem adjacent_difference_loop_fibonacci (n : Nat) :
    ∀ (i r : Nat), 1 ≤ i → n ≤ r →
      adjacent_difference_loop plus_int n
        ((List.range (i + 1)).map fibonacci_int32 ++ List.replicate r 1)
        i (i + 1) (fibonacci_int32 (i - 1)) =
      (List.range (i + 1 + n)).map fibonacci_int32 ++ List.replicate (r - n) 1 := by
  induction n with
  | zero => intro i r _ _; simp [adjacent_difference_loop]
  | succ n ih =>
    intro i r hi hr
    obtain ⟨j, rfl⟩ : ∃ j, i = j + 1 := ⟨i - 1, by omega⟩
    obtain ⟨q, rfl⟩ : ∃ q, r = q + 1 := ⟨r - 1, by omega⟩
    have hlen : ((List.range (j + 1 + 1)).map fibonacci_int32).length = j + 1 + 1 := by simp
    have hval : ((List.range (j + 1 + 1)).map fibonacci_int32 ++ List.replicate (q + 1) 1).getD
        (j + 1) 0 = fibonacci_int32 (j + 1) := by
      rw [List.getD_append _ _ _ _ (by rw [hlen]; omega)]
      simp [List.getD_eq_getElem?_getD, List.getElem?_range]
    have hset : ((List.range (j + 1 + 1)).map fibonacci_int32 ++ List.replicate (q + 1) 1).set
        (j + 1 + 1) (plus_int (fibonacci_int32 (j + 1)) (fibonacci_int32 j)) =
        (List.range (j + 1 + 1 + 1)).map fibonacci_int32 ++ List.replicate q 1 := by
      rw [List.set_append_right _ _ (by rw [hlen])]
      rw [hlen, Nat.sub_self, List.replicate_succ, List.set_cons_zero,
        map_fibonacci_int32_range_succ (j + 1 + 1), List.append_assoc]
      rfl
    simp only [adjacent_difference_loop, hval]
    rw [Nat.add_sub_cancel, hset]
    have := ih (j + 1 + 1) q (by omega) (by omega)
    rw [Nat.add_sub_cancel] at this
    rw [this]
    have e1 : j + 1 + 1 + 1 + n = j + 1 + 1 + (n + 1) := by omega
    have e2 : q + 1 - (n + 1) = q - n := by omega
    rw [e1, e2]

/-- The generated buffer is the recurrence `fibonacci_int32` on `0..second`. -/
theorem generate_fibonacci_eq (second : Nat) (h : 1 ≤ second) :
    generate_fibonacci second = (List.range (second + 1)).map fibonacci_int32 := by
  obtain ⟨s, rfl⟩ : ∃ s, second = s + 1 := ⟨second - 1, by omega⟩
  cases s with
  | zero => rfl
  | succ t =>
    have hfill : std_fill (List.replicate (t + 1 + 1 + 1) 0) 1
        (List.replicate (t + 1 + 1 + 1) (0 : Int)).length 1 =
        (List.range (2 + 1)).map fibonacci_int32 ++ List.replicate t 1 := by
      simp [std_fill, List.replicate_succ, List.range_succ, fibonacci_int32, plus_int,
        wrap_int32]
    simp only [generate_fibonacci]
    rw [hfill]
    have hne : ¬ (1 = ((List.range (2 + 1)).map fibonacci_int32 ++
        List.replicate t (1 : Int)).length - 1) := by
      simp
      omega
    simp only [adjacent_difference, hne, if_false]
    have hset : ((List.range (2 + 1)).map fibonacci_int32 ++ List.replicate t (1 : Int)).set 2
        (((List.range (2 + 1)).map fibonacci_int32 ++ List.replicate t (1 : Int)).getD 1 0) =
        (List.range (2 + 1)).map fibonacci_int32 ++ List.replicate t 1 := by
      simp [List.range_succ, fibonacci_int32, plus_int, wrap_int32]
    have hacc : ((List.range (2 + 1)).map fibonacci_int32 ++ List.replicate t (1 : Int)).getD 1 0
        = fibonacci_int32 (2 - 1) := by
      simp [List.range_succ, fibonacci_int32]
    rw [hset, hacc]
    have hn : ((List.range (2 + 1)).map fibonacci_int32 ++ List.replicate t (1 : Int)).length
        - 1 - 1 - 1 = t := by
      simp
    rw [hn]
    have := adjacent_difference_loop_fibonacci t 2 t (by omega) (le_refl _)
    rw [this]
    simp only [Nat.sub_self, List.replicate_zero, List.append_nil]
    congr 2
    omega

/-- Up to index 46 the 32-bit recurrence is the mathematical Fibonacci sequence. -/
theorem fibonacci_int32_eq_fib : ∀ n : Nat, n ≤ 46 → fibonacci_int32 n = (Nat.fib n : Int)
  | 0, _ => by simp [fibonacci_int32]
  | 1, _ => by simp [fibonacci_int32]
  | n + 2, h => by
    have h1 := fibonacci_int32_eq_fib (n + 1) (by omega)
    have h0 := fibonacci_int32_eq_fib n (by omega)
    have hmono : Nat.fib (n + 2) ≤ Nat.fib 46 := Nat.fib_mono h
    have h46 : Nat.fib 46 = 1836311903 := by norm_num
    have hrec : Nat.fib (n + 2) = Nat.fib n + Nat.fib (n + 1) := Nat.fib_add_two
    simp only [fibonacci_int32, plus_int, h1, h0]
    rw [wrap_int32_of_range _ (by positivity) (by
      have : (Nat.fib (n + 1) : Int) + (Nat.fib n : Int) ≤ 1836311903 := by
        have : Nat.fib (n + 1) + Nat.fib n ≤ 1836311903 := by omega
        exact_mod_cast this
      omega)]
    rw [hrec]
    push_cast
    ring

/-- The 32-bit recurrence is the Fibonacci sequence reduced to the `int` range. -/
theorem fibonacci_int32_eq_wrap_fib :
    ∀ n : Nat, fibonacci_int32 n = ((Nat.fib n : Int) + 2 ^ 31) % 2 ^ 32 - 2 ^ 31
  | 0 => by simp [fibonacci_int32]
  | 1 => by simp [fibonacci_int32]
  | n + 2 => by
    have h1 := fibonacci_int32_eq_wrap_fib (n + 1)
    have h0 := fibonacci_int32_eq_wrap_fib n
    have hrec : (Nat.fib (n + 2) : Int) = (Nat.fib n : Int) + (Nat.fib (n + 1) : Int) := by
      rw [Nat.fib_add_two]
      push_cast
      rfl
    simp only [fibonacci_int32, plus_int, wrap_int32, h1, h0, hrec]
    omega

/-- C14: for every `second ≥ 1` the generated buffer has length `second + 1` and
starts with `0, 1`; every later entry is the sum of its two predecessors reduced
to the 32-bit `int` range, which is the plain sum whenever that sum is an `int`;
and the entry of index `i` is the Fibonacci number `F_i` reduced to that range. -/
theorem generate_fibonacci_recurrence (second : Nat) (h : 1 ≤ second) :
    (generate_fibonacci second).length = second + 1 ∧
    (generate_fibonacci second)[0]? = some 0 ∧
    (generate_fibonacci second)[1]? = some 1 ∧
    (∀ i : Nat, 2 ≤ i → i ≤ second →
      (generate_fibonacci second).getD i 0 =
        ((generate_fibonacci second).getD (i - 1) 0 + (generate_fibonacci second).getD (i - 2) 0
          + 2 ^ 31) % 2 ^ 32 - 2 ^ 31) ∧
    (∀ i : Nat, 2 ≤ i → i ≤ second →
      -2 ^ 31 ≤ (generate_fibonacci second).getD (i - 1) 0
        + (generate_fibonacci second).getD (i - 2) 0 →
      (generate_fibonacci second).getD (i - 1) 0
        + (generate_fibonacci second).getD (i - 2) 0 < 2 ^ 31 →
      (generate_fibonacci second).getD i 0 =
        (generate_fibonacci second).getD (i - 1) 0
          + (generate_fibonacci second).getD (i - 2) 0) ∧
    (∀ i : Nat, i ≤ second →
      (generate_fibonacci second)[i]? = some (((Nat.fib i : Int) + 2 ^ 31) % 2 ^ 32 - 2 ^ 31)) := by
  rw [generate_fibonacci_eq second h]
  have hrec : ∀ i : Nat, 2 ≤ i → i ≤ second →
      ((List.range (second + 1)).map fibonacci_int32).getD i 0 =
        (((List.range (second + 1)).map fibonacci_int32).getD (i - 1) 0
          + ((List.range (second + 1)).map fibonacci_int32).getD (i - 2) 0
          + 2 ^ 31) % 2 ^ 32 - 2 ^ 31 := by
    intro i h2 hi
    obtain ⟨j, rfl⟩ : ∃ j, i = j + 2 := ⟨i - 2, by omega⟩
    have e2 : ((List.range (second + 1)).map fibonacci_int32).getD (j + 2) 0
        = fibonacci_int32 (j + 2) := by
      simp [List.getD_eq_getElem?_getD, List.getElem?_range, show j + 2 < second + 1 by omega]
    have e1 : ((List.range (second + 1)).map fibonacci_int32).getD (j + 2 - 1) 0
        = fibonacci_int32 (j + 1) := by
      simp [List.getD_eq_getElem?_getD, List.getElem?_range, show j + 1 < second + 1 by omega]
    have e0 : ((List.range (second + 1)).map fibonacci_int32).getD (j + 2 - 2) 0
        = fibonacci_int32 j := by
      simp [List.getD_eq_getElem?_getD, List.getElem?_range, show j < second + 1 by omega]
    rw [e2, e1, e0]
    rfl
  refine ⟨by simp, ?_, ?_, hrec, ?_, ?_⟩
  · rw [List.getElem?_map, List.getElem?_range (by omega)]
    rfl
  · rw [List.getElem?_map, List.getElem?_range (by omega)]
    rfl
  · intro i h2 hi hlo hhi
    rw [hrec i h2 hi]
    omega
  · intro i hi
    rw [List.getElem?_map, List.getElem?_range (by omega)]
    simp only [Option.map_some']
    rw [fibonacci_int32_eq_wrap_fib i]

/-- C14, witness: the buffer generated for `second = 6`, whose entry of index 6
is `F_6 = 8`. -/
theorem generate_fibonacci_recurrence_witness :
    1 ≤ 6 ∧
    (generate_fibonacci 6).length = 6 + 1 ∧
    (generate_fibonacci 6)[6]? = some (((Nat.fib 6 : Int) + 2 ^ 31) % 2 ^ 32 - 2 ^ 31) ∧
    (generate_fibonacci 6).getD 6 0 =
      ((generate_fibonacci 6).getD (6 - 1) 0 + (generate_fibonacci 6).getD (6 - 2) 0
        + 2 ^ 31) % 2 ^ 32 - 2 ^ 31 :=
  ⟨by decide, (generate_fibonacci_recurrence 6 (by decide)).1,
    (generate_fibonacci_recurrence 6 (by decide)).2.2.2.2.2 6 (by decide),
    (generate_fibonacci_recurrence 6 (by decide)).2.2.2.1 6 (by decide) (by decide)⟩

/-- C15 (amended): for every `1 ≤ second ≤ 46` the entry of index `i` of the
generated buffer is the Fibonacci number `F_i`, so every element is non-negative. -/
theorem generate_fibonacci_nonneg (second : Nat) (h : 1 ≤ second) (h46 : second ≤ 46) :
    (∀ i : Nat, i ≤ second → (generate_fibonacci second)[i]? = some (Nat.fib i : Int)) ∧
    ∀ x ∈ generate_fibonacci second, 0 ≤ x := by
  rw [generate_fibonacci_eq second h]
  constructor
  · intro i hi
    simp [List.getElem?_range, show i < second + 1 by omega,
      fibonacci_int32_eq_fib i (by omega)]
  · intro x hx
    rw [List.mem_map] at hx
    obtain ⟨i, hi, rfl⟩ := hx
    rw [fibonacci_int32_eq_fib i (by have := List.mem_range.mp hi; omega)]
    positivity

/-- C15, witness: the buffer generated for `second = 6`. -/
theorem generate_fibonacci_nonneg_witness :
    1 ≤ 6 ∧ 6 ≤ 46 ∧
    (∀ i : Nat, i ≤ 6 → (generate_fibonacci 6)[i]? = some (Nat.fib i : Int)) ∧
    ∀ x ∈ generate_fibonacci 6, 0 ≤ x :=
  ⟨by decide, by decide, generate_fibonacci_nonneg 6 (by decide) (by decide)⟩

set_option maxRecDepth 100000 in
/-- C15, counterexample: for `second = 47` the last addition leaves the 32-bit
range and the entry of index 47 is negative. -/
theorem generate_fibonacci_nonneg_counterexample :
    1 ≤ 47 ∧ (generate_fibonacci 47)[47]? = some (-1323752223) ∧
    ¬ (∀ x ∈ generate_fibonacci 47, 0 ≤ x) := by
  decide

end fibonacci_buffer

/-! ## The session -/

section session_theorems

variable {α : Type} [Field α]

/-- Steps compose. -/
theorem worker_steps_add (env : environment) (a b : Nat) (s : session α) :
    worker_steps env (a + b) s = worker_steps env b (worker_steps env a s) := by
  induction a generalizing s with
  | zero => simp [worker_steps]
  | succ n ih =>
    rw [Nat.succ_add]
    simp only [worker_steps]
    exact ih _

/-- A task that has returned takes no further step. -/
theorem worker_steps_returned (env : environment) (n : Nat) (s : session α)
    (h : s.worker_thread = some worker_pc.returned) : worker_steps env n s = s := by
  induction n with
  | zero => rfl
  | succ n ih =>
    simp only [worker_steps]
    have : worker_step env s = s := by simp [worker_step, h]
    rw [this, ih]

/-- While `sequence_ready` is true and `proceed` is false the task only moves
between the two tests of its loop. -/
theorem worker_steps_ready (env : environment) (k : Nat) :
    ∀ s : session α, s.flags.sequence_ready = true → s.flags.proceed = false →
      (s.worker_thread = some worker_pc.loop_head ∨
        s.worker_thread = some worker_pc.proceed_check) →
      ∃ pc, (pc = worker_pc.loop_head ∨ pc = worker_pc.proceed_check) ∧
        worker_steps env k s = { s with worker_thread := some pc } := by
  induction k with
  | zero =>
    intro s _ _ hpc
    rcases hpc with h | h
    · exact ⟨_, Or.inl rfl, by simp [worker_steps, ← h]⟩
    · exact ⟨_, Or.inr rfl, by simp [worker_steps, ← h]⟩
  | succ n ih =>
    intro s hr hp hpc
    simp only [worker_steps]
    rcases hpc with h | h
    · have hs : worker_step env s = { s with worker_thread := some worker_pc.proceed_check } := by
        simp [worker_step, h, hr]
      rw [hs]
      obtain ⟨pc, hpc, e⟩ := ih { s with worker_thread := some worker_pc.proceed_check }
        hr hp (Or.inr rfl)
      exact ⟨pc, hpc, e⟩
    · have hs : worker_step env s = { s with worker_thread := some worker_pc.loop_head } := by
        simp [worker_step, h, hp]
      rw [hs]
      obtain ⟨pc, hpc, e⟩ := ih { s with worker_thread := some worker_pc.loop_head }
        hr hp (Or.inl rfl)
      exact ⟨pc, hpc, e⟩

/-- Joining a task that has returned only releases the thread object. -/
theorem join_returned (env : environment) (fuel : Nat) (s : session α)
    (h : s.worker_thread = some worker_pc.returned) :
    join env fuel s = .ok { s with worker_thread := none } := by
  cases fuel <;> simp [join, join_now, h]

/-- Once `proceed` is true the task draws once and returns: `join` comes back
within two steps. -/
theorem join_after_proceed (env : environment) (fuel : Nat) (hfuel : 2 ≤ fuel) (s : session α)
    (hr : s.flags.sequence_ready = true) (hp : s.flags.proceed = true)
    (hpc : s.worker_thread = some worker_pc.loop_head ∨
      s.worker_thread = some worker_pc.proceed_check) :
    join env fuel s = .ok { s with
      render_passes := s.render_passes + 1
      rectangles := s.rectangles + (s.points.length - 1)
      worker_thread := none } := by
  obtain ⟨f, rfl⟩ : ∃ f, fuel = f + 2 := ⟨fuel - 2, by omega⟩
  rcases hpc with h | h
  · simp only [join, join_now, h, worker_step, hr, hp, Bool.not_true, Bool.false_eq_true,
      if_false, if_true]
    exact join_returned env f _ rfl
  · simp [join, join_now, h, worker_step, hp]

/-- Once `proceed` is true, after any number of steps the task is either still
between its two tests or has drawn exactly once and returned. -/
theorem worker_steps_after_proceed (env : environment) (m : Nat) :
    ∀ s : session α, s.flags.sequence_ready = true → s.flags.proceed = true →
      (s.worker_thread = some worker_pc.loop_head ∨
        s.worker_thread = some worker_pc.proceed_check) →
      (∃ pc, (pc = worker_pc.loop_head ∨ pc = worker_pc.proceed_check) ∧
        worker_steps env m s = { s with worker_thread := some pc }) ∨
      worker_steps env m s = { s with
        render_passes := s.render_passes + 1
        rectangles := s.rectangles + (s.points.length - 1)
        worker_thread := some worker_pc.returned } := by
  induction m with
  | zero =>
    intro s _ _ hpc
    left
    rcases hpc with h | h
    · exact ⟨_, Or.inl rfl, by simp [worker_steps, ← h]⟩
    · exact ⟨_, Or.inr rfl, by simp [worker_steps, ← h]⟩
  | succ n ih =>
    intro s hr hp hpc
    simp only [worker_steps]
    rcases hpc with h | h
    · have hs : worker_step env s = { s with worker_thread := some worker_pc.proceed_check } := by
        simp [worker_step, h, hr]
      rw [hs]
      exact ih { s with worker_thread := some worker_pc.proceed_check } hr hp (Or.inr rfl)
    · have hs : worker_step env s = { s with
          render_passes := s.render_passes + 1
          rectangles := s.rectangles + (s.points.length - 1)
          worker_thread := some worker_pc.returned } := by
        simp [worker_step, h, hp]
      rw [hs]
      right
      exact worker_steps_returned env n _ rfl

/-- A process the background task has killed takes no further step. -/
theorem worker_steps_crashed (env : environment) (n : Nat) (s : session α)
    (h : s.worker_thread = some worker_pc.crashed) : worker_steps env n s = s := by
  induction n with
  | zero => rfl
  | succ n ih =>
    simp only [worker_steps]
    have : worker_step env s = s := by simp [worker_step, h]
    rw [this, ih]

/-- The two steps from the start of a session to the return of
`get_fibonacci_points`, for a validated numeric request or for a path that opens
on a file holding more than `first` samples. -/
theorem worker_steps_computed (env : environment) (f1 f2 : Nat) (filename : List Char)
    (hsrc : (filename = [] ∧ f1 < f2) ∨
      (filename ≠ [] ∧ env.worker_open filename = true ∧
        (env.file_data filename).drop f1 ≠ [])) :
    ∃ pts : List (point2d α),
      worker_steps env 2 (render_fibonacci_spiral f1 f2 filename (session.idle : session α)) =
        ⟨⟨true, false, false⟩, some worker_pc.publish, f1, f2, filename, pts, 1, 1, 0, 0⟩ := by
  rcases hsrc with ⟨h, hlt⟩ | ⟨hne, hopen, hdata⟩
  · subst h
    have hlen : ((generate_fibonacci f2).drop f1).length = f2 + 1 - f1 := by
      rw [List.length_drop, generate_fibonacci_eq f2 (by omega)]
      simp
    have hemp : ((generate_fibonacci f2).drop f1).isEmpty = false := by
      cases hd : (generate_fibonacci f2).drop f1 with
      | nil => rw [hd] at hlen; simp at hlen; omega
      | cons a t => rfl
    exact ⟨get_fibonacci_points ((generate_fibonacci f2).drop f1),
      by simp [worker_steps, worker_step, render_fibonacci_spiral, session.idle,
        compute_points, get_fibonacci_points_call, hemp]⟩
  · have he : filename.isEmpty = false := by
      cases filename with
      | nil => exact absurd rfl hne
      | cons c t => rfl
    have hemp : ((env.file_data filename).drop f1).isEmpty = false := by
      cases hd : (env.file_data filename).drop f1 with
      | nil => exact absurd hd hdata
      | cons a t => rfl
    exact ⟨get_fibonacci_points ((env.file_data filename).drop f1),
      by simp [worker_steps, worker_step, render_fibonacci_spiral, session.idle,
        compute_points, get_fibonacci_points_call, he, hopen, hemp]⟩

/-- The three steps from the start of such a session to the store of
`sequence_ready = true`. -/
theorem worker_steps_building (env : environment) (f1 f2 : Nat) (filename : List Char)
    (hsrc : (filename = [] ∧ f1 < f2) ∨
      (filename ≠ [] ∧ env.worker_open filename = true ∧
        (env.file_data filename).drop f1 ≠ [])) :
    ∃ pts : List (point2d α),
      worker_steps env 3 (render_fibonacci_spiral f1 f2 filename (session.idle : session α)) =
        ⟨⟨true, true, false⟩, some worker_pc.proceed_check, f1, f2, filename, pts, 1, 1, 0, 0⟩ := by
  obtain ⟨pts, h2⟩ : ∃ pts : List (point2d α),
      worker_steps env 2 (render_fibonacci_spiral f1 f2 filename (session.idle : session α)) =
        ⟨⟨true, false, false⟩, some worker_pc.publish, f1, f2, filename, pts, 1, 1, 0, 0⟩ :=
    worker_steps_computed env f1 f2 filename hsrc
  refine ⟨pts, ?_⟩
  rw [show 3 = 2 + 1 from rfl, worker_steps_add, h2]
  simp [worker_steps, worker_step]

/-- A path that opens on a file holding no more than `first` samples: the call of
`get_fibonacci_points` kills the process after two steps, `sequence_ready` is never
stored, and neither `join` nor `run` comes back. -/
theorem empty_source_crashes (env : environment) (f1 f2 : Nat) (filename : List Char)
    (g1 g2 : Int) (gname : List Char) (k fuel : Nat)
    (hne : filename ≠ []) (hopen : env.worker_open filename = true)
    (hdata : (env.file_data filename).drop f1 = []) :
    (worker_steps env (2 + k) (render_fibonacci_spiral f1 f2 filename
      (session.idle : session α))).worker_thread = some worker_pc.crashed ∧
    (worker_steps env (2 + k) (render_fibonacci_spiral f1 f2 filename
      (session.idle : session α))).flags = ⟨true, false, false⟩ ∧
    run env fuel g1 g2 gname (worker_steps env (2 + k) (render_fibonacci_spiral f1 f2 filename
      (session.idle : session α))) = .error failure.crash := by
  have he : filename.isEmpty = false := by
    cases filename with
    | nil => exact absurd rfl hne
    | cons c t => rfl
  have h2 : worker_steps env 2 (render_fibonacci_spiral f1 f2 filename
      (session.idle : session α)) =
      ⟨⟨true, false, false⟩, some worker_pc.crashed, f1, f2, filename, [], 1, 1, 0, 0⟩ := by
    simp [worker_steps, worker_step, render_fibonacci_spiral, session.idle,
      compute_points, get_fibonacci_points_call, he, hopen, hdata]
  rw [worker_steps_add, h2, worker_steps_crashed env k _ rfl]
  exact ⟨rfl, rfl, by simp [run]⟩

/-- C16: a session started from the idle flags on a non-empty path that does not
open in the background task: the task returns after four steps, and from then on
`started`, `sequence_ready` and `proceed` are false, `get_fibonacci_points` has
not been called, no drawing pass has run and no rectangle has been emitted. -/
theorem unreadable_source_aborts (env : environment) (f1 f2 : Int) (filename : List Char)
    (fuel k : Nat) (hne : filename ≠ []) (hopen : env.worker_open filename = false) :
    run env fuel f1 f2 filename (session.idle : session α) =
      .ok (render_fibonacci_spiral f1.toNat f2.toNat filename session.idle) ∧
    (∀ j : Nat, j < 4 →
      (worker_steps env j (render_fibonacci_spiral f1.toNat f2.toNat filename
        (session.idle : session α))).worker_thread ≠ some worker_pc.returned) ∧
    (worker_steps env (4 + k) (render_fibonacci_spiral f1.toNat f2.toNat filename
        (session.idle : session α))).worker_thread = some worker_pc.returned ∧
    (worker_steps env (4 + k) (render_fibonacci_spiral f1.toNat f2.toNat filename
        (session.idle : session α))).flags = ⟨false, false, false⟩ ∧
    (worker_steps env (4 + k) (render_fibonacci_spiral f1.toNat f2.toNat filename
        (session.idle : session α))).generator_calls = 0 ∧
    (worker_steps env (4 + k) (render_fibonacci_spiral f1.toNat f2.toNat filename
        (session.idle : session α))).render_passes = 0 ∧
    (worker_steps env (4 + k) (render_fibonacci_spiral f1.toNat f2.toNat filename
        (session.idle : session α))).rectangles = 0 ∧
    (worker_steps env (4 + k) (render_fibonacci_spiral f1.toNat f2.toNat filename
        (session.idle : session α))).points = [] := by
  have he : filename.isEmpty = false := by
    cases filename with
    | nil => exact absurd rfl hne
    | cons c t => rfl
  have h4 : worker_steps env 4 (render_fibonacci_spiral f1.toNat f2.toNat filename
      (session.idle : session α)) =
      ⟨⟨false, false, false⟩, some worker_pc.returned, f1.toNat, f2.toNat, filename, [],
        1, 0, 0, 0⟩ := by
    simp [worker_steps, worker_step, render_fibonacci_spiral, session.idle, he, hopen]
  have hk : worker_steps env (4 + k) (render_fibonacci_spiral f1.toNat f2.toNat filename
      (session.idle : session α)) =
      ⟨⟨false, false, false⟩, some worker_pc.returned, f1.toNat, f2.toNat, filename, [],
        1, 0, 0, 0⟩ := by
    rw [worker_steps_add, h4, worker_steps_returned env k _ rfl]
  refine ⟨?_, ?_, ?_⟩
  · simp [run, session.idle]
  · intro j hj
    interval_cases j <;>
    simp [worker_steps, worker_step, render_fibonacci_spiral, session.idle, he, hopen]
  · rw [hk]
    exact ⟨rfl, rfl, rfl, rfl, rfl, rfl⟩

/-- C16, witness: the path `a.bin` with a file system that refuses to open it
in the background task. -/
theorem unreadable_source_aborts_witness :
    ['a', '.', 'b', 'i', 'n'] ≠ [] ∧
    (⟨fun _ => true, fun _ => false, fun _ => []⟩ : environment).worker_open
      ['a', '.', 'b', 'i', 'n'] = false ∧
    (worker_steps ⟨fun _ => true, fun _ => false, fun _ => []⟩ (4 + 0)
      (render_fibonacci_spiral (0 : Int).toNat (0 : Int).toNat ['a', '.', 'b', 'i', 'n']
        (session.idle : session ℚ))).flags = ⟨false, false, false⟩ :=
  ⟨by decide, rfl,
    (unreadable_source_aborts ⟨fun _ => true, fun _ => false, fun _ => []⟩ 0 0
      ['a', '.', 'b', 'i', 'n'] 0 0 (by decide) rfl).2.2.2.1⟩

/-- C17: a session started from the idle flags on a usable, non-empty source reaches
`sequence_ready = true` after three steps of the background task with one call
of `get_fibonacci_points`; however long the task then waits (`k` more steps) the
flags, the points and that count stay as they are. The call of `run` that follows
(store `proceed = true`, join, reset) comes back with all three flags false, the
thread joined, exactly one drawing pass and still one call of the generator; the
same holds when `proceed = true` is stored a second time, `m` steps of the task
after the first store and before the join. A call of `run` made before
`sequence_ready` is true changes nothing. The session is one that can reach
`sequence_ready = true`: a validated numeric request (`first < second`), or a
path that opens on a file holding more than `first` samples. -/
theorem session_handshake (env : environment) (f1 f2 : Nat) (filename : List Char)
    (g1 g2 : Int) (gname : List Char) (k m fuel : Nat)
    (hsrc : (filename = [] ∧ f1 < f2) ∨
      (filename ≠ [] ∧ env.worker_open filename = true ∧
        (env.file_data filename).drop f1 ≠ []))
    (hfuel : 2 ≤ fuel) :
    ((worker_steps env (3 + k) (render_fibonacci_spiral f1 f2 filename
        (session.idle : session α))).flags = ⟨true, true, false⟩ ∧
      (worker_steps env (3 + k) (render_fibonacci_spiral f1 f2 filename
        (session.idle : session α))).generator_calls = 1 ∧
      (worker_steps env (3 + k) (render_fibonacci_spiral f1 f2 filename
        (session.idle : session α))).render_passes = 0 ∧
      (worker_steps env (3 + k) (render_fibonacci_spiral f1 f2 filename
        (session.idle : session α))).points =
        (worker_steps env 3 (render_fibonacci_spiral f1 f2 filename
          (session.idle : session α))).points) ∧
    (∀ j : Nat, j < 3 →
      run env fuel g1 g2 gname (worker_steps env j (render_fibonacci_spiral f1 f2 filename
        (session.idle : session α))) =
      .ok (worker_steps env j (render_fibonacci_spiral f1 f2 filename
        (session.idle : session α)))) ∧
    (∃ final : session α,
      run env fuel g1 g2 gname (worker_steps env (3 + k) (render_fibonacci_spiral f1 f2 filename
        (session.idle : session α))) = .ok final ∧
      final.flags = ⟨false, false, false⟩ ∧ final.worker_thread = none ∧
      final.render_passes = 1 ∧ final.generator_calls = 1 ∧ final.invocations = 1) ∧
    (∃ joined : session α,
      join env fuel (store_proceed (worker_steps env m (store_proceed
        (worker_steps env (3 + k) (render_fibonacci_spiral f1 f2 filename
          (session.idle : session α)))))) = .ok joined ∧
      (reset_flags joined).flags = ⟨false, false, false⟩ ∧ joined.worker_thread = none ∧
      joined.render_passes = 1 ∧ joined.generator_calls = 1) := by
  obtain ⟨pts, h3⟩ : ∃ pts : List (point2d α),
      worker_steps env 3 (render_fibonacci_spiral f1 f2 filename (session.idle : session α)) =
        ⟨⟨true, true, false⟩, some worker_pc.proceed_check, f1, f2, filename, pts, 1, 1, 0, 0⟩ :=
    worker_steps_building env f1 f2 filename hsrc
  obtain ⟨pc, hpc, hk⟩ := worker_steps_ready env k
    (⟨⟨true, true, false⟩, some worker_pc.proceed_check, f1, f2, filename, pts, 1, 1, 0, 0⟩ :
      session α) rfl rfl (Or.inr rfl)
  have hready : worker_steps env (3 + k) (render_fibonacci_spiral f1 f2 filename
      (session.idle : session α)) =
      ⟨⟨true, true, false⟩, some pc, f1, f2, filename, pts, 1, 1, 0, 0⟩ := by
    rw [worker_steps_add, h3, hk]
  have hpc2 : (some pc = some worker_pc.loop_head ∨ some pc = some worker_pc.proceed_check) := by
    rcases hpc with h | h
    · exact Or.inl (congrArg some h)
    · exact Or.inr (congrArg some h)
  have hpoll : ∀ j : Nat, j < 3 →
      run env fuel g1 g2 gname (worker_steps env j (render_fibonacci_spiral f1 f2 filename
        (session.idle : session α))) =
      .ok (worker_steps env j (render_fibonacci_spiral f1 f2 filename
        (session.idle : session α))) := by
    intro j hj
    obtain ⟨pts2, h2⟩ : ∃ pts : List (point2d α),
        worker_steps env 2 (render_fibonacci_spiral f1 f2 filename
          (session.idle : session α)) =
          ⟨⟨true, false, false⟩, some worker_pc.publish, f1, f2, filename, pts, 1, 1, 0, 0⟩ :=
      worker_steps_computed env f1 f2 filename hsrc
    interval_cases j
    · simp [run, worker_steps, render_fibonacci_spiral, session.idle]
    · simp [run, worker_steps, worker_step, render_fibonacci_spiral, session.idle]
    · rw [h2]
      simp [run]
  refine ⟨?_, hpoll, ?_⟩
  · rw [hready, h3]
    exact ⟨rfl, rfl, rfl, rfl⟩
  rw [hready]
  refine ⟨?_, ?_⟩
  · have hj := join_after_proceed env fuel hfuel
      (store_proceed (⟨⟨true, true, false⟩, some pc, f1, f2, filename, pts, 1, 1, 0, 0⟩ :
        session α)) rfl rfl hpc2
    obtain ⟨J, hJ, e1, e2, e3, e4⟩ : ∃ J : session α,
        join env fuel (store_proceed (⟨⟨true, true, false⟩, some pc, f1, f2, filename, pts,
          1, 1, 0, 0⟩ : session α)) = .ok J ∧ J.worker_thread = none ∧
        J.render_passes = 1 ∧ J.generator_calls = 1 ∧ J.invocations = 1 :=
      ⟨_, hj, rfl, rfl, rfl, rfl⟩
    refine ⟨reset_flags J, ?_, rfl, e1, e2, e3, e4⟩
    have hnc : ¬ (some pc = some worker_pc.crashed) := by
      rcases hpc with h | h <;> simp [h]
    simp only [run, hnc, Bool.not_true, Bool.false_eq_true, if_false, if_true]
    rw [hJ]
  · rcases worker_steps_after_proceed env m
      (store_proceed (⟨⟨true, true, false⟩, some pc, f1, f2, filename, pts, 1, 1, 0, 0⟩ :
        session α)) rfl rfl hpc2 with ⟨pc2, hpc2b, hm⟩ | hm
    · rw [hm]
      have hpc3 : (some pc2 = some worker_pc.loop_head ∨
          some pc2 = some worker_pc.proceed_check) := by
        rcases hpc2b with h | h
        · exact Or.inl (congrArg some h)
        · exact Or.inr (congrArg some h)
      have hj := join_after_proceed env fuel hfuel
        (store_proceed { store_proceed (⟨⟨true, true, false⟩, some pc, f1, f2, filename, pts,
          1, 1, 0, 0⟩ : session α) with worker_thread := some pc2 }) rfl rfl hpc3
      exact ⟨_, hj, rfl, rfl, rfl, rfl⟩
    · rw [hm]
      have hj := join_returned env fuel
        (store_proceed { store_proceed (⟨⟨true, true, false⟩, some pc, f1, f2, filename, pts,
          1, 1, 0, 0⟩ : session α) with
            render_passes := 0 + 1
            rectangles := 0 + (pts.length - 1)
            worker_thread := some worker_pc.returned }) rfl
      exact ⟨_, hj, rfl, rfl, rfl, rfl⟩

/-- C17, witness: the numeric request `(0, 6)`, two waiting steps, one step
between the two stores, and a join budget of two steps. -/
theorem session_handshake_witness :
    ((([] : List Char) = [] ∧ 0 < 6) ∨
      (([] : List Char) ≠ [] ∧
        (⟨fun _ => true, fun _ => true, fun _ => []⟩ : environment).worker_open [] = true ∧
        ((⟨fun _ => true, fun _ => true, fun _ => []⟩ : environment).file_data []).drop 0
          ≠ [])) ∧
    2 ≤ 2 ∧
    ∃ final : session ℚ,
      run ⟨fun _ => true, fun _ => true, fun _ => []⟩ 2 0 6 []
        (worker_steps ⟨fun _ => true, fun _ => true, fun _ => []⟩ (3 + 2)
          (render_fibonacci_spiral 0 6 [] (session.idle : session ℚ))) = .ok final ∧
      final.flags = ⟨false, false, false⟩ ∧ final.worker_thread = none ∧
      final.render_passes = 1 ∧ final.generator_calls = 1 ∧ final.invocations = 1 :=
  ⟨Or.inl ⟨rfl, by decide⟩, by decide,
    (session_handshake ⟨fun _ => true, fun _ => true, fun _ => []⟩ 0 6 [] 0 6 [] 2 1 2
      (Or.inl ⟨rfl, by decide⟩) (by decide)).2.2.1⟩

/-- C18: when `first ≥ second` or `second ≤ 0` the block `if (pressed)` leaves the
whole state of `main` as it is: `run` is not called, so `render_fibonacci_spiral`
is not invoked and no flag changes. -/
theorem numeric_request_rejected (env : environment) (fuel : Nat) (f1 f2 : Int)
    (m : main_state α) (h : f1 ≥ f2 ∨ f2 ≤ 0) :
    numeric_request_step env fuel f1 f2 m = .ok m := by
  have hc : (decide (f1 ≥ 0) && decide (f2 > 0) && decide (f2 > f1)) = false := by
    rcases h with h | h
    · have : ¬ (f2 > f1) := by omega
      simp [this]
    · have : ¬ (f2 > 0) := by omega
      simp [this]
  unfold numeric_request_step
  cases hp : m.pressed
  · simp only [Bool.false_eq_true, if_false]
  · simp only [if_true, hc, Bool.false_eq_true, if_false]

/-- C18, witness: the request `(5, 3)` while a session is idle and `pressed` is set. -/
theorem numeric_request_rejected_witness :
    ((5 : Int) ≥ 3 ∨ (3 : Int) ≤ 0) ∧
    numeric_request_step ⟨fun _ => true, fun _ => true, fun _ => []⟩ 0 5 3
      (⟨true, false, session.idle⟩ : main_state ℚ) = .ok ⟨true, false, session.idle⟩ :=
  ⟨by decide, numeric_request_rejected _ 0 5 3 _ (by decide)⟩

/-- The last four characters compared with `.bin` are a suffix of the path. -/
theorem sub_eq_bin_suffix (filename : List Char)
    (h : ((if filename.length > 4 then filename.drop (filename.length - 4) else [])
      == ['.', 'b', 'i', 'n']) = true) :
    ['.', 'b', 'i', 'n'] <:+ filename := by
  by_cases hl : filename.length > 4
  · simp only [hl, if_true, beq_iff_eq] at h
    rw [← h]
    exact List.drop_suffix _ _
  · simp [hl] at h

/-- C19: a load request (`load` set, `pressed` clear) whose path is empty, does
not end with `.bin` or does not open when `main` probes it only clears `load`:
`run` is not called, so `render_fibonacci_spiral` is not invoked and no flag changes. -/
theorem load_request_rejected (env : environment) (fuel : Nat) (filename : List Char)
    (m : main_state α) (hload : m.load = true) (hpressed : m.pressed = false)
    (hbad : filename = [] ∨ ¬ (['.', 'b', 'i', 'n'] <:+ filename) ∨
      env.foreground_open filename = false) :
    load_request_step env fuel filename m = .ok { m with load := false } := by
  have hc : (!filename.isEmpty &&
      (if filename.length > 4 then filename.drop (filename.length - 4) else [])
        == ['.', 'b', 'i', 'n'] && env.foreground_open filename) = false := by
    rcases hbad with h | h | h
    · subst h
      rfl
    · have : ((if filename.length > 4 then filename.drop (filename.length - 4) else [])
          == ['.', 'b', 'i', 'n']) = false := by
        cases hb : ((if filename.length > 4 then filename.drop (filename.length - 4) else [])
          == ['.', 'b', 'i', 'n'])
        · rfl
        · exact absurd (sub_eq_bin_suffix filename hb) h
      rw [this]
      simp
    · rw [h]
      simp
  unfold load_request_step
  simp only [hload, hpressed, Bool.not_false, Bool.and_self, if_true]
  rw [hc]
  simp

/-- C19, witness: the path `a.txt`, which the file system would open. -/
theorem load_request_rejected_witness :
    (⟨false, true, session.idle⟩ : main_state ℚ).load = true ∧
    (⟨false, true, session.idle⟩ : main_state ℚ).pressed = false ∧
    (['a', '.', 't', 'x', 't'] = [] ∨ ¬ (['.', 'b', 'i', 'n'] <:+ ['a', '.', 't', 'x', 't']) ∨
      (⟨fun _ => true, fun _ => true, fun _ => []⟩ : environment).foreground_open
        ['a', '.', 't', 'x', 't'] = false) ∧
    load_request_step ⟨fun _ => true, fun _ => true, fun _ => []⟩ 0 ['a', '.', 't', 'x', 't']
      (⟨false, true, session.idle⟩ : main_state ℚ) = .ok ⟨false, false, session.idle⟩ :=
  ⟨rfl, rfl, Or.inr (Or.inl (by decide)),
    load_request_rejected _ 0 _ _ rfl rfl (Or.inr (Or.inl (by decide)))⟩

end session_theorems

/-! ## The shape of the spiral -/

section spiral_shape

variable {α : Type} [Field α]

/-- The quarter turns of the unit vector `(1, 0)`, four at a time. -/
theorem rotation_iterate_unit (α : Type) [Field α] (q : Nat) :
    (rotation_matrix.static_matrix_2f_90d.mul_point^[4 * q] (⟨1, 0⟩ : point2d α) = ⟨1, 0⟩) ∧
    (rotation_matrix.static_matrix_2f_90d.mul_point^[4 * q + 1] (⟨1, 0⟩ : point2d α) = ⟨0, 1⟩) ∧
    (rotation_matrix.static_matrix_2f_90d.mul_point^[4 * q + 2] (⟨1, 0⟩ : point2d α)
      = ⟨-1, 0⟩) ∧
    (rotation_matrix.static_matrix_2f_90d.mul_point^[4 * q + 3] (⟨1, 0⟩ : point2d α)
      = ⟨0, -1⟩) := by
  have hrot : ∀ p : point2d α, rotation_matrix.static_matrix_2f_90d.mul_point p = ⟨-p.y, p.x⟩ := by
    intro p
    simp [rotation_matrix.mul_point, rotation_matrix.static_matrix_2f_90d,
      rotation_matrix.cos, rotation_matrix.sin]
  induction q with
  | zero =>
    refine ⟨rfl, ?_, ?_, ?_⟩ <;> simp [Function.iterate_succ_apply', hrot]
  | succ n ih =>
    obtain ⟨_, _, _, h3⟩ := ih
    have e0 : rotation_matrix.static_matrix_2f_90d.mul_point^[4 * (n + 1)]
        (⟨1, 0⟩ : point2d α) = ⟨1, 0⟩ := by
      rw [show 4 * (n + 1) = (4 * n + 3) + 1 by ring, Function.iterate_succ_apply', h3, hrot]
      simp
    have e1 : rotation_matrix.static_matrix_2f_90d.mul_point^[4 * (n + 1) + 1]
        (⟨1, 0⟩ : point2d α) = ⟨0, 1⟩ := by
      rw [Function.iterate_succ_apply', e0, hrot]
      simp
    have e2 : rotation_matrix.static_matrix_2f_90d.mul_point^[4 * (n + 1) + 2]
        (⟨1, 0⟩ : point2d α) = ⟨-1, 0⟩ := by
      rw [Function.iterate_succ_apply', e1, hrot]
    have e3 : rotation_matrix.static_matrix_2f_90d.mul_point^[4 * (n + 1) + 3]
        (⟨1, 0⟩ : point2d α) = ⟨0, -1⟩ := by
      rw [Function.iterate_succ_apply', e2, hrot]
      simp
    exact ⟨e0, e1, e2, e3⟩

/-- One call of `reduce_op` in cursor state `r`, on a segment whose displacement
is `c` times the `r`-th quarter turn of `(1, 0)`: the new displacement is `k * c`
times the next quarter turn. -/
theorem reduce_op_displacement (q r : Nat) (hr : r < 4) (c k : α) (d : Int) (v : vector2d α)
    (pts : List (point2d α))
    (hx : v.displacement.x =
      c * (rotation_matrix.static_matrix_2f_90d.mul_point^[4 * q + r] (⟨1, 0⟩ : point2d α)).x)
    (hy : v.displacement.y =
      c * (rotation_matrix.static_matrix_2f_90d.mul_point^[4 * q + r] (⟨1, 0⟩ : point2d α)).y) :
    (reduce_op ⟨v, ⟨⟨r, hr⟩⟩, pts⟩ (k, d)).v.displacement.x =
      c * k * (rotation_matrix.static_matrix_2f_90d.mul_point^[4 * q + r + 1]
        (⟨1, 0⟩ : point2d α)).x ∧
    (reduce_op ⟨v, ⟨⟨r, hr⟩⟩, pts⟩ (k, d)).v.displacement.y =
      c * k * (rotation_matrix.static_matrix_2f_90d.mul_point^[4 * q + r + 1]
        (⟨1, 0⟩ : point2d α)).y := by
  obtain ⟨u0, u1, u2, u3⟩ := rotation_iterate_unit α q
  obtain ⟨w0, _, _, _⟩ := rotation_iterate_unit α (q + 1)
  simp only [vector2d.displacement] at hx hy
  interval_cases r
  · rw [Nat.add_zero, u0] at hx hy
    rw [Nat.add_zero, u1]
    simp only [mul_one, mul_zero] at hx hy
    simp [reduce_op, vector2d.displacement, circular_scale_iterator.scale_translate,
      circular_scale_iterator.transformations,
      scale_translate_matrix.set, scale_translate_matrix.ctor, scale_translate_matrix.cols,
      scale_translate_matrix.rows, scale_translate_matrix.mul_vector,
      scale_translate_matrix.mul_point, scale_translate_matrix.scale_x,
      scale_translate_matrix.scale_y, scale_translate_matrix.translate_x,
      scale_translate_matrix.translate_y, rotation_matrix.mul_vector, rotation_matrix.mul_point,
      rotation_matrix.static_matrix_2f_90d, rotation_matrix.cos, rotation_matrix.sin, hx, hy]
    ring
  · rw [u1] at hx hy
    rw [u2]
    simp only [mul_one, mul_zero] at hx hy
    simp [reduce_op, vector2d.displacement, circular_scale_iterator.scale_translate,
      circular_scale_iterator.transformations,
      scale_translate_matrix.set, scale_translate_matrix.ctor, scale_translate_matrix.cols,
      scale_translate_matrix.rows, scale_translate_matrix.mul_vector,
      scale_translate_matrix.mul_point, scale_translate_matrix.scale_x,
      scale_translate_matrix.scale_y, scale_translate_matrix.translate_x,
      scale_translate_matrix.translate_y, rotation_matrix.mul_vector, rotation_matrix.mul_point,
      rotation_matrix.static_matrix_2f_90d, rotation_matrix.cos, rotation_matrix.sin, hx, hy]
    ring
  · rw [u2] at hx hy
    rw [u3]
    simp only [mul_one, mul_zero, mul_neg] at hx hy
    simp [reduce_op, vector2d.displacement, circular_scale_iterator.scale_translate,
      circular_scale_iterator.transformations,
      scale_translate_matrix.set, scale_translate_matrix.ctor, scale_translate_matrix.cols,
      scale_translate_matrix.rows, scale_translate_matrix.mul_vector,
      scale_translate_matrix.mul_point, scale_translate_matrix.scale_x,
      scale_translate_matrix.scale_y, scale_translate_matrix.translate_x,
      scale_translate_matrix.translate_y, rotation_matrix.mul_vector, rotation_matrix.mul_point,
      rotation_matrix.static_matrix_2f_90d, rotation_matrix.cos, rotation_matrix.sin, hx, hy]
    ring
  · rw [u3] at hx hy
    rw [show 4 * q + 3 + 1 = 4 * (q + 1) by ring, w0]
    simp only [mul_one, mul_zero, mul_neg] at hx hy
    simp [reduce_op, vector2d.displacement, circular_scale_iterator.scale_translate,
      circular_scale_iterator.transformations,
      scale_translate_matrix.set, scale_translate_matrix.ctor, scale_translate_matrix.cols,
      scale_translate_matrix.rows, scale_translate_matrix.mul_vector,
      scale_translate_matrix.mul_point, scale_translate_matrix.scale_x,
      scale_translate_matrix.scale_y, scale_translate_matrix.translate_x,
      scale_translate_matrix.translate_y, rotation_matrix.mul_vector, rotation_matrix.mul_point,
      rotation_matrix.static_matrix_2f_90d, rotation_matrix.cos, rotation_matrix.sin, hx, hy]
    ring

/-- The displacement of the accumulator after a pair list `l` has been folded is
the product of the scales of `l` times the `|l|`-th quarter turn of `(1, 0)`. -/
theorem foldl_reduce_op_displacement (l : List (α × Int)) :
    (l.foldl reduce_op ⟨⟨⟨0, 0⟩, ⟨1, 0⟩⟩, circular_scale_iterator.ctor, []⟩).v.displacement.x =
      (l.map Prod.fst).prod *
        (rotation_matrix.static_matrix_2f_90d.mul_point^[l.length] (⟨1, 0⟩ : point2d α)).x ∧
    (l.foldl reduce_op ⟨⟨⟨0, 0⟩, ⟨1, 0⟩⟩, circular_scale_iterator.ctor, []⟩).v.displacement.y =
      (l.map Prod.fst).prod *
        (rotation_matrix.static_matrix_2f_90d.mul_point^[l.length] (⟨1, 0⟩ : point2d α)).y := by
  induction l using List.reverseRecOn with
  | nil => simp [vector2d.displacement]
  | append_singleton l p ih =>
    obtain ⟨k, d⟩ := p
    have hlen : l.length = 4 * (l.length / 4) + l.length % 4 := (Nat.div_add_mod _ 4).symm
    have hstate := foldl_reduce_op_eq l
    have hx := ih.1
    have hy := ih.2
    rw [hstate] at hx hy
    rw [List.foldl_append, hstate]
    simp only [List.foldl_cons, List.foldl_nil]
    have hx2 : (spec_running_segment l l.length).displacement.x =
        (l.map Prod.fst).prod * (rotation_matrix.static_matrix_2f_90d.mul_point^[
          4 * (l.length / 4) + l.length % 4] (⟨1, 0⟩ : point2d α)).x := by
      rw [← hlen]; exact hx
    have hy2 : (spec_running_segment l l.length).displacement.y =
        (l.map Prod.fst).prod * (rotation_matrix.static_matrix_2f_90d.mul_point^[
          4 * (l.length / 4) + l.length % 4] (⟨1, 0⟩ : point2d α)).y := by
      rw [← hlen]; exact hy
    have hstep := reduce_op_displacement (l.length / 4) (l.length % 4)
      (Nat.mod_lt _ (by decide)) (l.map Prod.fst).prod k d (spec_running_segment l l.length)
      ((List.range l.length).map (fun i => (spec_running_segment l i).p2)) hx2 hy2
    rw [← hlen] at hstep
    simp only [List.map_append, List.map_cons, List.map_nil, List.prod_append, List.prod_cons,
      List.prod_nil, mul_one, List.length_append, List.length_singleton]
    exact hstep

/-- The running segment after `i` steps is the spec-worded `v_i`. -/
theorem running_segment_eq_spec (input : List Int) (i : Nat)
    (hi : i ≤ (transformed input : List (α × Int)).length) :
    (running_segment input i : vector2d α) = spec_running_segment (transformed input) i := by
  have hlen : ((transformed input : List (α × Int)).take i).length = i := by
    rw [List.length_take]; omega
  have h := foldl_reduce_op_eq ((transformed input : List (α × Int)).take i)
  have h2 := spec_running_segment_append ((transformed input : List (α × Int)).take i)
    ((transformed input).drop i) i (by rw [hlen])
  rw [List.take_append_drop] at h2
  simp only [running_segment]
  rw [h, hlen, h2]

/-- The sample of index `j` of the standard Fibonacci input. -/
theorem fibonacci_input_getElem? (m j : Nat) (hj : j ≤ m) :
    (fibonacci_input m)[j]? = some (Nat.fib j : Int) := by
  simp only [fibonacci_input]
  rw [List.getElem?_map, List.getElem?_range (by omega)]
  rfl

/-- On the standard Fibonacci input the scales of the first `j` pairs multiply to `F_j`. -/
theorem fibonacci_scales_prod [CharZero α] (m : Nat) :
    ∀ j : Nat, 1 ≤ j → j ≤ m →
      (((transformed (fibonacci_input m) : List (α × Int)).take j).map Prod.fst).prod
        = (Nat.fib j : α) := by
  intro j
  induction j with
  | zero => intro h; omega
  | succ n ih =>
    intro _ hm
    have hpair : (transformed (fibonacci_input m) : List (α × Int))[n]? =
        some (transform_op (Nat.fib n) (Nat.fib (n + 1))) :=
      transformed_getElem?_of_lt (fibonacci_input m) n (Nat.fib n)
        (Nat.fib (n + 1)) (fibonacci_input_getElem? m n (by omega))
        (fibonacci_input_getElem? m (n + 1) hm)
    rw [List.take_succ, hpair]
    simp only [Option.toList, List.map_append, List.map_cons, List.map_nil, List.prod_append,
      List.prod_cons, List.prod_nil, mul_one]
    cases n with
    | zero => simp [transform_op]
    | succ k =>
      rw [ih (by omega) (by omega)]
      have hpos : 0 < Nat.fib (k + 1) := Nat.fib_pos.mpr (by omega)
      have hne : ((Nat.fib (k + 1) : Int)) ≠ 0 := by exact_mod_cast hpos.ne'
      have hne2 : ((Nat.fib (k + 1) : α)) ≠ 0 := by exact_mod_cast hpos.ne'
      simp only [transform_op, hne, if_false]
      push_cast
      field_simp

/-- Every quarter turn of `(1, 0)` lies on an axis and has squared length 1. -/
theorem rotation_iterate_unit_axis (α : Type) [Field α] (i : Nat) :
    ((rotation_matrix.static_matrix_2f_90d.mul_point^[i] (⟨1, 0⟩ : point2d α)).x = 0 ∨
      (rotation_matrix.static_matrix_2f_90d.mul_point^[i] (⟨1, 0⟩ : point2d α)).y = 0) ∧
    (rotation_matrix.static_matrix_2f_90d.mul_point^[i] (⟨1, 0⟩ : point2d α)).norm_sq = 1 := by
  obtain ⟨u0, u1, u2, u3⟩ := rotation_iterate_unit α (i / 4)
  have hlen : i = 4 * (i / 4) + i % 4 := (Nat.div_add_mod _ 4).symm
  have hr : i % 4 < 4 := Nat.mod_lt _ (by decide)
  rw [hlen]
  generalize i % 4 = r at hr
  interval_cases r
  · rw [Nat.add_zero, u0]; simp [point2d.norm_sq]
  · rw [u1]; simp [point2d.norm_sq]
  · rw [u2]; simp [point2d.norm_sq]
  · rw [u3]; simp [point2d.norm_sq]

/-- On the standard Fibonacci input the running segment after `1 ≤ j ≤ m` steps has
displacement `F_j` times the `j`-th quarter turn of `(1, 0)`, of squared length `F_j²`. -/
theorem fibonacci_running_displacement [CharZero α] (m j : Nat) (hj : 1 ≤ j) (hjm : j ≤ m) :
    (running_segment (fibonacci_input m) j : vector2d α).displacement.x =
      (Nat.fib j : α) *
        (rotation_matrix.static_matrix_2f_90d.mul_point^[j] (⟨1, 0⟩ : point2d α)).x ∧
    (running_segment (fibonacci_input m) j : vector2d α).displacement.y =
      (Nat.fib j : α) *
        (rotation_matrix.static_matrix_2f_90d.mul_point^[j] (⟨1, 0⟩ : point2d α)).y ∧
    (running_segment (fibonacci_input m) j : vector2d α).displacement.norm_sq =
      (Nat.fib j : α) ^ 2 := by
  have hlen : ((transformed (fibonacci_input m) : List (α × Int)).take j).length = j := by
    rw [List.length_take, transformed_length, segments]
    simp [fibonacci_input]
    omega
  obtain ⟨hx, hy⟩ := foldl_reduce_op_displacement
    ((transformed (fibonacci_input m) : List (α × Int)).take j)
  rw [hlen, fibonacci_scales_prod m j hj hjm] at hx hy
  have hn := (rotation_iterate_unit_axis α j).2
  simp only [point2d.norm_sq] at hn
  refine ⟨hx, hy, ?_⟩
  have hx2 : (running_segment (fibonacci_input m) j : vector2d α).displacement.x =
      (Nat.fib j : α) *
        (rotation_matrix.static_matrix_2f_90d.mul_point^[j] (⟨1, 0⟩ : point2d α)).x := hx
  have hy2 : (running_segment (fibonacci_input m) j : vector2d α).displacement.y =
      (Nat.fib j : α) *
        (rotation_matrix.static_matrix_2f_90d.mul_point^[j] (⟨1, 0⟩ : point2d α)).y := hy
  simp only [point2d.norm_sq, hx2, hy2]
  linear_combination ((Nat.fib j : α) ^ 2) * hn

/-- C21: after `i` steps the running segment of `get_fibonacci_points` has
displacement `(k_0·…·k_(i−1)) · Rot90^i (1, 0)`, the product of the scales of the
first `i` pairs times a quarter turn of the unit vector, so it lies on an axis.
For the standard Fibonacci input `[F_0, …, F_m]` and `1 ≤ j ≤ m` the displacement
after `j` steps is `F_j · Rot90^j (1, 0)` and the segment has length exactly `F_j`. -/
theorem running_segment_axis_aligned (input : List Int) (i : Nat)
    (hi : i ≤ (transformed input : List (α × Int)).length) (m j : Nat)
    (hj : 1 ≤ j) (hjm : j ≤ m) :
    ((running_segment input i : vector2d α).displacement.x =
        (((transformed input : List (α × Int)).take i).map Prod.fst).prod *
          (rotation_matrix.static_matrix_2f_90d.mul_point^[i] (⟨1, 0⟩ : point2d α)).x ∧
      (running_segment input i : vector2d α).displacement.y =
        (((transformed input : List (α × Int)).take i).map Prod.fst).prod *
          (rotation_matrix.static_matrix_2f_90d.mul_point^[i] (⟨1, 0⟩ : point2d α)).y ∧
      ((running_segment input i : vector2d α).displacement.x = 0 ∨
        (running_segment input i : vector2d α).displacement.y = 0)) ∧
    ((running_segment (fibonacci_input m) j : vector2d ℚ).displacement.x =
        (Nat.fib j : ℚ) *
          (rotation_matrix.static_matrix_2f_90d.mul_point^[j] (⟨1, 0⟩ : point2d ℚ)).x ∧
      (running_segment (fibonacci_input m) j : vector2d ℚ).displacement.y =
        (Nat.fib j : ℚ) *
          (rotation_matrix.static_matrix_2f_90d.mul_point^[j] (⟨1, 0⟩ : point2d ℚ)).y ∧
      (running_segment (fibonacci_input m) j : vector2d ℚ).displacement.norm_sq =
        (Nat.fib j : ℚ) ^ 2) ∧
    Real.sqrt ((running_segment (fibonacci_input m) j : vector2d ℝ).displacement.norm_sq) =
      (Nat.fib j : ℝ) := by
  have hlen : ((transformed input : List (α × Int)).take i).length = i := by
    rw [List.length_take]; omega
  obtain ⟨hx, hy⟩ := foldl_reduce_op_displacement ((transformed input : List (α × Int)).take i)
  rw [hlen] at hx hy
  have hx2 : (running_segment input i : vector2d α).displacement.x =
      (((transformed input : List (α × Int)).take i).map Prod.fst).prod *
        (rotation_matrix.static_matrix_2f_90d.mul_point^[i] (⟨1, 0⟩ : point2d α)).x := hx
  have hy2 : (running_segment input i : vector2d α).displacement.y =
      (((transformed input : List (α × Int)).take i).map Prod.fst).prod *
        (rotation_matrix.static_matrix_2f_90d.mul_point^[i] (⟨1, 0⟩ : point2d α)).y := hy
  refine ⟨⟨hx2, hy2, ?_⟩, fibonacci_running_displacement m j hj hjm, ?_⟩
  · rcases (rotation_iterate_unit_axis α i).1 with h | h
    · left; rw [hx2, h, mul_zero]
    · right; rw [hy2, h, mul_zero]
  · rw [(fibonacci_running_displacement m j hj hjm).2.2]
    exact Real.sqrt_sq (Nat.cast_nonneg _)

/-- C21, witness: three steps on `[0,1,1,2,3,5,8]`, and four steps on the standard
Fibonacci input `[F_0, …, F_6]`, where the squared length is `F_4²`. -/
theorem running_segment_axis_aligned_witness :
    3 ≤ (transformed [0, 1, 1, 2, 3, 5, 8] : List (ℚ × Int)).length ∧ 1 ≤ 4 ∧ 4 ≤ 6 ∧
    (running_segment (fibonacci_input 6) 4 : vector2d ℚ).displacement.norm_sq =
      (Nat.fib 4 : ℚ) ^ 2 :=
  ⟨by decide, by decide, by decide,
    (running_segment_axis_aligned [0, 1, 1, 2, 3, 5, 8] 3
      (show 3 ≤ (transformed [0, 1, 1, 2, 3, 5, 8] : List (ℚ × Int)).length by decide)
      6 4 (by decide) (by decide)).2.1.2.2⟩

end spiral_shape

/-! ## The padding of the pair list -/

section padding

variable {α : Type} [Field α]

/-- The pair list is the written prefix followed by value-initialised pairs. -/
theorem transformed_eq_append_replicate (input : List Int) :
    (transformed input : List (α × Int)) =
      List.zipWith transform_op input.dropLast input.tail ++
        List.replicate (input.length * segments - (input.length - 1)) ((0 : α), (0 : Int)) := by
  simp only [transformed, List.drop_replicate, transformed_written_length]

/-- A pair with distance `0` leaves the anchor of the segment where it is. -/
theorem reduce_op_anchor_of_zero_distance (s : reduce_state α) (k : α) :
    (reduce_op s (k, (0 : Int))).v.p1 = s.v.p1 := by
  rcases s with ⟨v, ⟨i⟩, pts⟩
  fin_cases i <;>
  simp [reduce_op, circular_scale_iterator.scale_translate,
    circular_scale_iterator.transformations,
    scale_translate_matrix.set, scale_translate_matrix.ctor, scale_translate_matrix.cols,
    scale_translate_matrix.rows, scale_translate_matrix.mul_vector,
    scale_translate_matrix.mul_point, scale_translate_matrix.scale_x,
    scale_translate_matrix.scale_y, scale_translate_matrix.translate_x,
    scale_translate_matrix.translate_y, rotation_matrix.mul_vector]

/-- A value-initialised pair leaves a zero-length segment where it is and emits
its position. -/
theorem reduce_op_zero_pair_degenerate (s : reduce_state α) (a : point2d α)
    (h : s.v = ⟨a, a⟩) :
    (reduce_op s ((0 : α), (0 : Int))).v = ⟨a, a⟩ ∧
    (reduce_op s ((0 : α), (0 : Int))).points = s.points ++ [a] := by
  rcases s with ⟨v, ⟨i⟩, pts⟩
  simp only at h
  subst h
  fin_cases i <;>
  simp [reduce_op, circular_scale_iterator.scale_translate,
    circular_scale_iterator.transformations,
    scale_translate_matrix.set, scale_translate_matrix.ctor, scale_translate_matrix.cols,
    scale_translate_matrix.rows, scale_translate_matrix.mul_vector,
    scale_translate_matrix.mul_point, scale_translate_matrix.scale_x,
    scale_translate_matrix.scale_y, scale_translate_matrix.translate_x,
    scale_translate_matrix.translate_y, rotation_matrix.mul_vector, rotation_matrix.mul_point,
    rotation_matrix.static_matrix_2f_90d, rotation_matrix.cos, rotation_matrix.sin]

/-- Folding value-initialised pairs from a zero-length segment never moves it. -/
theorem foldl_reduce_op_zero_pairs_degenerate (t : Nat) (a : point2d α) :
    ∀ s : reduce_state α, s.v = ⟨a, a⟩ →
      ((List.replicate t ((0 : α), (0 : Int))).foldl reduce_op s).v = ⟨a, a⟩ ∧
      ((List.replicate t ((0 : α), (0 : Int))).foldl reduce_op s).points =
        s.points ++ List.replicate t a := by
  induction t with
  | zero => intro s h; simp [h]
  | succ n ih =>
    intro s h
    obtain ⟨h1, h2⟩ := reduce_op_zero_pair_degenerate s a h
    obtain ⟨g1, g2⟩ := ih (reduce_op s ((0 : α), (0 : Int))) h1
    rw [List.replicate_succ, List.foldl_cons]
    refine ⟨g1, ?_⟩
    rw [g2, h2, List.append_assoc]
    rfl

/-- The first value-initialised pair after a pair list `l` collapses the segment
onto the anchor it had after `l`. -/
theorem reduce_op_zero_pair_collapse (l : List (α × Int)) :
    (reduce_op (l.foldl reduce_op ⟨⟨⟨0, 0⟩, ⟨1, 0⟩⟩, circular_scale_iterator.ctor, []⟩)
      ((0 : α), (0 : Int))).v =
      ⟨(l.foldl reduce_op ⟨⟨⟨0, 0⟩, ⟨1, 0⟩⟩, circular_scale_iterator.ctor, []⟩).v.p1,
       (l.foldl reduce_op ⟨⟨⟨0, 0⟩, ⟨1, 0⟩⟩, circular_scale_iterator.ctor, []⟩).v.p1⟩ := by
  obtain ⟨hx, hy⟩ := foldl_reduce_op_displacement (l ++ [((0 : α), (0 : Int))])
  rw [List.foldl_append] at hx hy
  simp only [List.foldl_cons, List.foldl_nil, List.map_append, List.map_cons, List.map_nil,
    List.prod_append, List.prod_cons, List.prod_nil, mul_zero, zero_mul,
    vector2d.displacement] at hx hy
  have ha := reduce_op_anchor_of_zero_distance
    (l.foldl reduce_op ⟨⟨⟨0, 0⟩, ⟨1, 0⟩⟩, circular_scale_iterator.ctor, []⟩) (0 : α)
  generalize reduce_op (l.foldl reduce_op ⟨⟨⟨0, 0⟩, ⟨1, 0⟩⟩, circular_scale_iterator.ctor, []⟩)
    ((0 : α), (0 : Int)) = s at hx hy ha
  rcases s with ⟨⟨⟨ax, ay⟩, ⟨tx, ty⟩⟩, it, pts⟩
  simp only at hx hy ha
  rw [← ha]
  have ex : tx = ax := sub_eq_zero.mp hx
  have ey : ty = ay := sub_eq_zero.mp hy
  rw [ex, ey]

/-- The accumulator and the points after the written pairs `l` followed by `t + 1`
value-initialised pairs: the points of `l`, the tip after `l`, then `t` copies of
the anchor after `l`; the segment has collapsed onto that anchor. -/
theorem foldl_reduce_op_padding (l : List (α × Int)) (t : Nat) :
    ((l ++ List.replicate (t + 1) ((0 : α), (0 : Int))).foldl reduce_op
      ⟨⟨⟨0, 0⟩, ⟨1, 0⟩⟩, circular_scale_iterator.ctor, []⟩).v =
      ⟨(l.foldl reduce_op ⟨⟨⟨0, 0⟩, ⟨1, 0⟩⟩, circular_scale_iterator.ctor, []⟩).v.p1,
       (l.foldl reduce_op ⟨⟨⟨0, 0⟩, ⟨1, 0⟩⟩, circular_scale_iterator.ctor, []⟩).v.p1⟩ ∧
    ((l ++ List.replicate (t + 1) ((0 : α), (0 : Int))).foldl reduce_op
      ⟨⟨⟨0, 0⟩, ⟨1, 0⟩⟩, circular_scale_iterator.ctor, []⟩).points =
      (l.foldl reduce_op ⟨⟨⟨0, 0⟩, ⟨1, 0⟩⟩, circular_scale_iterator.ctor, []⟩).points ++
        [(l.foldl reduce_op ⟨⟨⟨0, 0⟩, ⟨1, 0⟩⟩, circular_scale_iterator.ctor, []⟩).v.p2] ++
        List.replicate t
          (l.foldl reduce_op ⟨⟨⟨0, 0⟩, ⟨1, 0⟩⟩, circular_scale_iterator.ctor, []⟩).v.p1 := by
  rw [List.foldl_append, List.replicate_succ, List.foldl_cons]
  obtain ⟨g1, g2⟩ := foldl_reduce_op_zero_pairs_degenerate t
    (l.foldl reduce_op ⟨⟨⟨0, 0⟩, ⟨1, 0⟩⟩, circular_scale_iterator.ctor, []⟩).v.p1
    (reduce_op (l.foldl reduce_op ⟨⟨⟨0, 0⟩, ⟨1, 0⟩⟩, circular_scale_iterator.ctor, []⟩)
      ((0 : α), (0 : Int))) (reduce_op_zero_pair_collapse l)
  refine ⟨g1, ?_⟩
  rw [g2]
  rfl

/-- C22: for every input of length `n ≥ 1` the pair list has `10·n` entries, its
first `n − 1` entries are the pairs written from the input and all later entries
are the value-initialised pair `(0, 0)`; the generator returns `10·n` points; from
step `n` on the running segment is the zero-length segment at the anchor it had
after the `n − 1` real steps, and every point of index `≥ n` is that anchor. -/
theorem get_fibonacci_points_padding (input : List Int) (h : 1 ≤ input.length) :
    (transformed input : List (α × Int)).length = 10 * input.length ∧
    (transformed input : List (α × Int)).take (input.length - 1) =
      List.zipWith transform_op input.dropLast input.tail ∧
    (∀ k : Nat, input.length - 1 ≤ k → k < 10 * input.length →
      (transformed input : List (α × Int))[k]? = some (0, 0)) ∧
    (get_fibonacci_points input : List (point2d α)).length = 10 * input.length ∧
    (∀ j : Nat, input.length ≤ j → j ≤ 10 * input.length →
      (running_segment input j : vector2d α) =
        ⟨(running_segment input (input.length - 1)).p1,
         (running_segment input (input.length - 1)).p1⟩) ∧
    (∀ j : Nat, input.length ≤ j → j < 10 * input.length →
      (get_fibonacci_points input : List (point2d α))[j]? =
        some (running_segment input (input.length - 1) : vector2d α).p1) := by
  have hW : (List.zipWith (transform_op : Int → Int → α × Int)
      input.dropLast input.tail).length = input.length - 1 := transformed_written_length input
  have hT : (transformed input : List (α × Int)) =
      List.zipWith transform_op input.dropLast input.tail ++
        List.replicate (input.length * segments - (input.length - 1)) ((0 : α), (0 : Int)) :=
    transformed_eq_append_replicate input
  have hcount : input.length * segments - (input.length - 1) = 9 * input.length + 1 := by
    simp only [segments]; omega
  rw [hcount] at hT
  have htake : (transformed input : List (α × Int)).take (input.length - 1) =
      List.zipWith transform_op input.dropLast input.tail := by
    rw [hT]; exact List.take_left' hW
  have hseg : (running_segment input (input.length - 1) : vector2d α) =
      ((List.zipWith (transform_op : Int → Int → α × Int) input.dropLast input.tail).foldl
        reduce_op ⟨⟨⟨0, 0⟩, ⟨1, 0⟩⟩, circular_scale_iterator.ctor, []⟩).v := by
    simp only [running_segment]
    rw [htake]
  refine ⟨?_, htake, ?_, ?_, ?_, ?_⟩
  · rw [transformed_length, segments]; omega
  · intro k hk1 hk2
    rw [hT, List.getElem?_append_right (by rw [hW]; exact hk1), hW,
      List.getElem?_replicate]
    have : k - (input.length - 1) < 9 * input.length + 1 := by omega
    simp [this]
  · rw [get_fibonacci_points_length, segments]
  · intro j hj1 hj2
    have hj : (transformed input : List (α × Int)).take j =
        List.zipWith transform_op input.dropLast input.tail ++
          List.replicate ((j - input.length) + 1) ((0 : α), (0 : Int)) := by
      rw [hT, List.take_append_eq_append_take, hW, List.take_replicate,
        List.take_of_length_le (by rw [hW]; omega)]
      congr 2
      omega
    rw [hseg]
    simp only [running_segment]
    rw [hj]
    exact (foldl_reduce_op_padding _ (j - input.length)).1
  · intro j hj1 hj2
    rw [hseg]
    simp only [get_fibonacci_points]
    rw [hT, (foldl_reduce_op_padding _ (9 * input.length)).2]
    have hpts : ((List.zipWith (transform_op : Int → Int → α × Int) input.dropLast
        input.tail).foldl reduce_op
          ⟨⟨⟨0, 0⟩, ⟨1, 0⟩⟩, circular_scale_iterator.ctor, []⟩).points.length
        = input.length - 1 := by
      rw [foldl_reduce_op_points_length, hW]
      simp
    rw [List.getElem?_append_right (by
      rw [List.length_append, hpts, List.length_singleton]; omega)]
    rw [List.length_append, hpts, List.length_singleton, List.getElem?_replicate]
    have : j - (input.length - 1 + 1) < 9 * input.length := by omega
    simp [this]

/-- C22, witness: the 7-sample input `[0,1,1,2,3,5,8]`, whose points of index `≥ 7`
all equal the anchor after six steps. -/
theorem get_fibonacci_points_padding_witness :
    1 ≤ [(0 : Int), 1, 1, 2, 3, 5, 8].length ∧
    (get_fibonacci_points [0, 1, 1, 2, 3, 5, 8] : List (point2d ℚ)).length =
      10 * [(0 : Int), 1, 1, 2, 3, 5, 8].length ∧
    (get_fibonacci_points [0, 1, 1, 2, 3, 5, 8] : List (point2d ℚ))[7]? =
      some (running_segment [0, 1, 1, 2, 3, 5, 8]
        ([(0 : Int), 1, 1, 2, 3, 5, 8].length - 1) : vector2d ℚ).p1 :=
  ⟨by decide,
    (get_fibonacci_points_padding [0, 1, 1, 2, 3, 5, 8] (by decide)).2.2.2.1,
    (get_fibonacci_points_padding [0, 1, 1, 2, 3, 5, 8] (by decide)).2.2.2.2.2 7
      (by decide) (by decide)⟩

end padding

/-! ## The sample range of a numeric request -/

section sample_range

/-- C23: for a numeric request that passes the validation of `main`
(`first ≥ 0`, `second > 0`, `second > first`) the generated buffer has
`second + 1` elements, the range handed to `get_fibonacci_points` starts inside
it and has `second − first + 1 ≥ 2` samples, so `[begin, end - 1)` is a proper
range of `n − 1 ≥ 1` samples and the pairs written by `std::transform` fit into
`transformed`; that range is the one the background task of the started
session passes to the generator. -/
theorem numeric_request_sample_range (α : Type) [Field α] (env : environment) (fuel : Nat)
    (f1 f2 : Int)
    (load : Bool) (h1 : f1 ≥ 0) (h2 : f2 > 0) (h3 : f2 > f1) :
    (generate_fibonacci f2.toNat).length = f2.toNat + 1 ∧
    f1.toNat < (generate_fibonacci f2.toNat).length ∧
    (((generate_fibonacci f2.toNat).drop f1.toNat).length : Int) = f2 - f1 + 1 ∧
    2 ≤ ((generate_fibonacci f2.toNat).drop f1.toNat).length ∧
    ((generate_fibonacci f2.toNat).drop f1.toNat).dropLast.length + 1 =
      ((generate_fibonacci f2.toNat).drop f1.toNat).length ∧
    ((generate_fibonacci f2.toNat).drop f1.toNat).dropLast.length ≤
      (transformed ((generate_fibonacci f2.toNat).drop f1.toNat) : List (α × Int)).length ∧
    numeric_request_step env fuel f1 f2 (⟨true, load, session.idle⟩ : main_state α) =
      .ok ⟨true, load, render_fibonacci_spiral f1.toNat f2.toNat [] session.idle⟩ ∧
    (worker_steps env 2 (render_fibonacci_spiral f1.toNat f2.toNat []
      (session.idle : session α))).points =
      get_fibonacci_points ((generate_fibonacci f2.toNat).drop f1.toNat) := by
  have hs : 1 ≤ f2.toNat := by omega
  have hlen : (generate_fibonacci f2.toNat).length = f2.toNat + 1 := by
    rw [generate_fibonacci_eq _ hs]
    simp
  have hdrop : ((generate_fibonacci f2.toNat).drop f1.toNat).length
      = f2.toNat + 1 - f1.toNat := by
    rw [List.length_drop, hlen]
  refine ⟨hlen, ?_, ?_, ?_, ?_, ?_, ?_, ?_⟩
  · rw [hlen]; omega
  · rw [hdrop]; omega
  · rw [hdrop]; omega
  · rw [List.length_dropLast, hdrop]; omega
  · rw [List.length_dropLast, transformed_length, hdrop, segments]; omega
  · have hc : (decide (f1 ≥ 0) && decide (f2 > 0) && decide (f2 > f1)) = true := by
      simp [h1, h2, h3]
    simp only [numeric_request_step, if_true, hc]
    simp [run, session.idle]
  · have hemp : ((generate_fibonacci f2.toNat).drop f1.toNat).isEmpty = false := by
      cases hd : (generate_fibonacci f2.toNat).drop f1.toNat with
      | nil => rw [hd] at hdrop; simp at hdrop; omega
      | cons a t => rfl
    simp [worker_steps, worker_step, render_fibonacci_spiral, session.idle, compute_points,
      get_fibonacci_points_call, hemp]

/-- C23, witness: the request `(2, 6)`. -/
theorem numeric_request_sample_range_witness :
    (2 : Int) ≥ 0 ∧ (6 : Int) > 0 ∧ (6 : Int) > 2 ∧
    (((generate_fibonacci (6 : Int).toNat).drop (2 : Int).toNat).length : Int) = 6 - 2 + 1 ∧
    2 ≤ ((generate_fibonacci (6 : Int).toNat).drop (2 : Int).toNat).length :=
  ⟨by decide, by decide, by decide,
    (numeric_request_sample_range ℚ ⟨fun _ => true, fun _ => true, fun _ => []⟩ 0 2 6
      false (by decide) (by decide) (by decide)).2.2.1,
    (numeric_request_sample_range ℚ ⟨fun _ => true, fun _ => true, fun _ => []⟩ 0 2 6
      false (by decide) (by decide) (by decide)).2.2.2.1⟩

end sample_range

/-! ## The returned points and the samples -/

section running_tips

variable {α : Type} [Field α]

/-- Where both samples exist the derived pair is the one `transform_op` computes. -/
theorem spec_derived_pair_of_samples (input : List Int) (k : Nat) (prev next : Int)
    (hp : input[k]? = some prev) (hn : input[k + 1]? = some next) :
    (spec_derived_pair input k : Option (α × Int)) = some (transform_op prev next) := by
  simp only [spec_derived_pair, hp, hn]
  rfl

/-- There is no derived pair at a position whose successor is not a sample. -/
theorem spec_derived_pair_of_ge (input : List Int) (k : Nat) (h : input.length ≤ k + 1) :
    (spec_derived_pair input k : Option (α × Int)) = none := by
  have hn : input[k + 1]? = none := List.getElem?_eq_none h
  simp only [spec_derived_pair, hn]
  cases input[k]? <;> rfl

/-- The entries of the pair list past the written prefix are value-initialised. -/
theorem transformed_getElem?_of_ge (input : List Int) (k : Nat)
    (h1 : input.length ≤ k + 1) (h2 : k < input.length * segments) :
    (transformed input : List (α × Int))[k]? = some ((0 : α), (0 : Int)) := by
  have hW : (List.zipWith (transform_op : Int → Int → α × Int)
      input.dropLast input.tail).length = input.length - 1 := transformed_written_length input
  rw [transformed_eq_append_replicate, List.getElem?_append_right (by rw [hW]; omega), hW,
    List.getElem?_replicate]
  have : k - (input.length - 1) < input.length * segments - (input.length - 1) := by omega
  simp [this]

/-- The pair list folded by `get_fibonacci_points` is determined by the samples:
the derived pair of samples `i`, `i + 1` where both exist, `(0, 0)` elsewhere. -/
theorem transformed_eq_spec_pairs (input : List Int) :
    (transformed input : List (α × Int)) = spec_pairs input (input.length * segments) := by
  apply List.ext_getElem?
  intro k
  by_cases hk : k < input.length * segments
  · have hr : (spec_pairs input (input.length * segments) : List (α × Int))[k]? =
        some ((spec_derived_pair input k).getD ((0 : α), (0 : Int))) := by
      simp only [spec_pairs]
      rw [List.getElem?_map, List.getElem?_range hk]
      rfl
    rw [hr]
    by_cases hs : k + 1 < input.length
    · have hp : input[k]? = some (input[k]) := List.getElem?_eq_getElem (by omega)
      have hn : input[k + 1]? = some (input[k + 1]) := List.getElem?_eq_getElem hs
      rw [transformed_getElem?_of_lt input k _ _ hp hn,
        spec_derived_pair_of_samples input k _ _ hp hn]
      rfl
    · rw [transformed_getElem?_of_ge input k (by omega) hk,
        spec_derived_pair_of_ge input k (by omega)]
      rfl
  · rw [List.getElem?_eq_none (by rw [transformed_length]; omega),
      List.getElem?_eq_none (by simp [spec_pairs]; omega)]

/-- As long as all derived pairs it needs exist, the specification's `v_i` is the
accumulator of the fold. -/
theorem spec_segment_eq (input : List Int) :
    ∀ i : Nat, i < input.length →
      (spec_segment input i : Option (vector2d α)) =
        some (spec_running_segment (transformed input) i) := by
  intro i
  induction i with
  | zero => intro _; rfl
  | succ n ih =>
    intro h
    have hp : input[n]? = some (input[n]) := List.getElem?_eq_getElem (by omega)
    have hn : input[n + 1]? = some (input[n + 1]) := List.getElem?_eq_getElem h
    have hpair : (transformed input : List (α × Int)).getD n (0, 0) =
        transform_op (input[n]) (input[n + 1]) := by
      rw [List.getD_eq_getElem?_getD, transformed_getElem?_of_lt input n _ _ hp hn]
      rfl
    simp only [spec_segment, ih (by omega), spec_derived_pair_of_samples input n _ _ hp hn,
      spec_running_segment, hpair]

/-- C2 (amended): for every non-empty input of length `n`, the `i`-th returned
point is the tip of the running segment `v_i`, where `v_0` has anchor `(0,0)` and
tip `(1,0)` (so point 0 is `(1,0)`) and `v_(i+1) = Rotate90 · (ScaleTranslate_i · v_i)`
with `ScaleTranslate_i` built in cursor state `i mod 4` from the `i`-th pair; the
point is recorded before the transform of step `i`. For `i < n` every pair used is
the pair derived from the samples `(input[j], input[j+1])`; the points of index
`n ≤ i < 10·n` continue the same recursion with the value-initialised pair `(0, 0)`. -/
theorem get_fibonacci_points_running_tips (input : List Int) (h : 1 ≤ input.length) :
    (get_fibonacci_points input : List (point2d α)) =
      (List.range (10 * input.length)).map
        (fun i => (spec_running_segment (spec_pairs input (10 * input.length)) i).p2) ∧
    (∀ i : Nat, i < input.length →
      ∃ v : vector2d α, spec_segment input i = some v ∧
        (get_fibonacci_points input : List (point2d α))[i]? = some v.p2) ∧
    (spec_segment input 0 : Option (vector2d α)) = some ⟨⟨0, 0⟩, ⟨1, 0⟩⟩ ∧
    (get_fibonacci_points input : List (point2d α))[0]? = some ⟨1, 0⟩ := by
  have hlen : (transformed input : List (α × Int)).length = 10 * input.length := by
    rw [transformed_length, segments]; omega
  have hpts : (get_fibonacci_points input : List (point2d α)) =
      (List.range (10 * input.length)).map
        (fun i => (spec_running_segment (transformed input) i).p2) := by
    simp only [get_fibonacci_points, foldl_reduce_op_eq]
    rw [hlen]
  have hidx : ∀ i : Nat, i < input.length →
      (get_fibonacci_points input : List (point2d α))[i]? =
        some (spec_running_segment (transformed input) i).p2 := by
    intro i hi
    rw [hpts, List.getElem?_map, List.getElem?_range (by omega)]
    rfl
  refine ⟨?_, ?_, rfl, ?_⟩
  · rw [hpts, transformed_eq_spec_pairs, segments, Nat.mul_comm]
  · intro i hi
    exact ⟨_, spec_segment_eq input i hi, hidx i hi⟩
  · rw [hidx 0 (by omega)]
    rfl

/-- C2, witness: the 7-sample input `[0,1,1,2,3,5,8]`, point 6. -/
theorem get_fibonacci_points_running_tips_witness :
    1 ≤ [(0 : Int), 1, 1, 2, 3, 5, 8].length ∧
    (get_fibonacci_points [0, 1, 1, 2, 3, 5, 8] : List (point2d ℚ))[0]? = some ⟨1, 0⟩ ∧
    ∃ v : vector2d ℚ, spec_segment [0, 1, 1, 2, 3, 5, 8] 6 = some v ∧
      (get_fibonacci_points [0, 1, 1, 2, 3, 5, 8] : List (point2d ℚ))[6]? = some v.p2 :=
  ⟨by decide,
    (get_fibonacci_points_running_tips [0, 1, 1, 2, 3, 5, 8] (by decide)).2.2.2,
    (get_fibonacci_points_running_tips [0, 1, 1, 2, 3, 5, 8] (by decide)).2.1 6 (by decide)⟩

/-- C2, counterexample: on `[0,1,1,2,3,5,8]` a point of index 7 is returned, but
the input has no sixth derived pair (there is no sample of index 7), so the
segment `v_7` of the claim does not exist; the pair folded at step 6 is the
value-initialised `(0, 0)`. -/
theorem get_fibonacci_points_running_tips_counterexample :
    ((get_fibonacci_points [0, 1, 1, 2, 3, 5, 8] : List (point2d ℚ))[7]?).isSome = true ∧
    (spec_derived_pair [0, 1, 1, 2, 3, 5, 8] 6 : Option (ℚ × Int)) = none ∧
    (spec_segment [0, 1, 1, 2, 3, 5, 8] 7 : Option (vector2d ℚ)) = none ∧
    (get_fibonacci_points [0, 1, 1, 2, 3, 5, 8] : List (point2d ℚ))[7]? ≠
      (spec_segment [0, 1, 1, 2, 3, 5, 8] 7 : Option (vector2d ℚ)).map vector2d.p2 ∧
    ((transformed [0, 1, 1, 2, 3, 5, 8] : List (ℚ × Int))[6]?).map Prod.snd = some 0 := by
  decide

end running_tips

end fib
